import Mathlib

/-!
Verification of the signature-polymorphic ABI dispatch layer of a
browser-based EVM encoding/decoding toolkit.  The dispatch layer lives in
`src/lib/full-abi/fullAbi.ts` (classifier `from`, ABI-array lookup
`fromAbi`, and the uniform operations `getParameter`, `encode`, `decode`)
together with the signature regexes of the repository's regex module.
The underlying codecs and signature parsers are supplied by the external
`ox` library; where their behaviour decides a property they are modelled
from the specification, as indicated by doc comments starting
`Modelled from the spec:`.  Byte strings (the `0x...` hex strings of the
source) are modelled by their lists of byte values, and signature strings
by their character lists.  The modelled elementary-type fragment covers
the statically sized types `uint256`, `address` and `bool` exercised by
the specification and the repository's tests.
-/

namespace MiniEthTool

/-- Byte strings modelled as lists of byte values. -/
abbrev Bytes := List Nat

/-- ASCII whitespace, the fragment of the JavaScript regex class `\s`
occurring in signature strings. -/
def isWsChar (c : Char) : Bool := c == ' ' || c == '\t' || c == '\n' || c == '\r'

/-- A character list without newline characters (the characters matched by
the JavaScript `.`). -/
def nlFree (l : List Char) : Bool := l.all (fun c => c != '\n')

/-- Search, after the mandatory first inner character of the tuple test,
for a `)` splitting the rest into two newline-free parts (the `\).*?$`
part of `isTupleRegex`, reached through the lazy `.+?`). -/
def scanClose : List Char → Bool
  | [] => false
  | c :: r => if c = ')' then nlFree r || scanClose r else (c != '\n') && scanClose r

/-- Model of `isTupleRegex = /^\(.+?\).*?$/` from the repository's regex
module: an opening parenthesis, at least one further character, and a
later `)` splitting the remainder into newline-free parts. -/
def isTupleMatchL : List Char → Bool
  | c0 :: c :: r => (c0 == '(') && (c != '\n') && scanClose r
  | _ => false

/-- Strip a literal pattern from the front of a character list. -/
def stripLit : List Char → List Char → Option (List Char)
  | [], l => some l
  | _ :: _, [] => none
  | p :: ps, c :: cs => if p = c then stripLit ps cs else none

/-- First character class of a JavaScript identifier, `[a-zA-Z$_]`. -/
def identStart (c : Char) : Bool := c.isAlpha || c == '$' || c == '_'

/-- Continuation character class of a JavaScript identifier,
`[a-zA-Z0-9$_]`. -/
def identChar (c : Char) : Bool := c.isAlphanum || c == '$' || c == '_'

/-- Match `(?<parameters>.*?)\)$` after an opening parenthesis: the
remainder must end in `)` preceded by a newline-free (possibly empty)
parameter substring, which is returned. -/
def closeTail (l : List Char) : Option (List Char) :=
  match l.reverse with
  | d :: revMid => if d = ')' ∧ nlFree revMid then some revMid.reverse else none
  | [] => none

/-- Match `(?<name>[a-zA-Z$_][a-zA-Z0-9$_]*)\(` followed by `closeTail`:
returns the identifier and the raw parameter substring. -/
def nameParams : List Char → Option (List Char × List Char)
  | [] => none
  | c :: cs =>
    if identStart c then
      match cs.dropWhile identChar with
      | d :: rest =>
        if d = '(' then
          match closeTail rest with
          | some ps => some (c :: cs.takeWhile identChar, ps)
          | none => none
        else none
      | [] => none
    else none

/-- Core match of `errorSignatureRegex`:
`^error (?<name>[a-zA-Z$_][a-zA-Z0-9$_]*)\((?<parameters>.*?)\)$`. -/
def errorCore (l : List Char) : Option (List Char × List Char) :=
  (stripLit "error ".data l).bind nameParams

/-- Core match of `eventSignatureRegex`:
`^event (?<name>[a-zA-Z$_][a-zA-Z0-9$_]*)\((?<parameters>.*?)\)$`. -/
def eventCore (l : List Char) : Option (List Char × List Char) :=
  (stripLit "event ".data l).bind nameParams

/-- The optional groups following a function signature's parameter list:
scope, state mutability, and the returns parameter substring. -/
structure FuncTail where
  scope : Option (List Char)
  mutability : Option (List Char)
  rets : Option (List Char)
deriving Repr, DecidableEq

/-- Strip the first of a list of literal alternatives that matches, as the
regex alternation `(a|b|...)` does. -/
def stripFirst (pats : List (List Char)) (l : List Char) : Option (List Char) × List Char :=
  match pats with
  | [] => (none, l)
  | p :: ps =>
    match stripLit p l with
    | some r => (some p, r)
    | none => stripFirst ps l

/-- Match the optional `(?: returns\s?\((?<returns>.*?)\))?$` group of
`functionSignatureRegex`. -/
def parseRets (l : List Char) : Option (Option (List Char)) :=
  match l with
  | [] => some none
  | _ =>
    match stripLit " returns".data l with
    | none => none
    | some r1 =>
      let r2 := match r1 with
        | c :: cs => if isWsChar c then cs else r1
        | [] => r1
      match r2 with
      | d :: rest => if d = '(' then (closeTail rest).map some else none
      | [] => none

/-- Match the optional `(?: (external|public))?(?: (pure|view|nonpayable|payable))?`
groups and then the returns group of `functionSignatureRegex`. -/
def parseFuncTail (l : List Char) : Option FuncTail :=
  let s1 := stripFirst [" external".data, " public".data] l
  let s2 := stripFirst [" pure".data, " view".data, " nonpayable".data, " payable".data] s1.2
  match parseRets s2.2 with
  | some rets => some ⟨s1.1.map (List.drop 1), s2.1.map (List.drop 1), rets⟩
  | none => none

/-- Lazy search (the `(?<parameters>.*?)\)` part of
`functionSignatureRegex`) for the earliest `)` whose remainder matches the
optional tail groups. -/
def funcParamsScan : List Char → Option (List Char × FuncTail)
  | [] => none
  | c :: rest =>
    if c = ')' then
      match parseFuncTail rest with
      | some t => some ([], t)
      | none =>
        match funcParamsScan rest with
        | some pt => some (c :: pt.1, pt.2)
        | none => none
    else if c = '\n' then none
    else
      match funcParamsScan rest with
      | some pt => some (c :: pt.1, pt.2)
      | none => none

/-- Match of `functionSignatureRegex` after the `function ` keyword:
identifier, lazily closed parameter list, optional tail groups. -/
def funcAfterKw : List Char → Option (List Char × List Char × FuncTail)
  | [] => none
  | c :: cs =>
    if identStart c then
      match cs.dropWhile identChar with
      | d :: r2 =>
        if d = '(' then
          match funcParamsScan r2 with
          | some pt => some (c :: cs.takeWhile identChar, pt.1, pt.2)
          | none => none
        else none
      | [] => none
    else none

/-- Core match of `functionSignatureRegex`: keyword, identifier, lazily
closed parameter list, optional tail groups. -/
def funcCore (l : List Char) : Option (List Char × List Char × FuncTail) :=
  (stripLit "function ".data l).bind funcAfterKw

/-- Match the optional `(?:\s(?<stateMutability>payable))?$` tail of
`constructorSignatureRegex`. -/
def ctorTail (l : List Char) : Option (Option (List Char)) :=
  match l with
  | [] => some none
  | c :: cs =>
    if isWsChar c then
      if cs = "payable".data then some (some cs) else none
    else none

/-- Lazy search for the `)` closing a constructor's parameter list such
that the remainder matches `ctorTail`. -/
def ctorParamsScan : List Char → Option (List Char × Option (List Char))
  | [] => none
  | c :: rest =>
    if c = ')' then
      match ctorTail rest with
      | some t => some ([], t)
      | none =>
        match ctorParamsScan rest with
        | some pt => some (c :: pt.1, pt.2)
        | none => none
    else if c = '\n' then none
    else
      match ctorParamsScan rest with
      | some pt => some (c :: pt.1, pt.2)
      | none => none

/-- Core match of `constructorSignatureRegex`:
`^constructor\((?<parameters>.*?)\)(?:\s(?<stateMutability>payable))?$`. -/
def ctorCore (l : List Char) : Option (List Char × Option (List Char)) :=
  (stripLit "constructor(".data l).bind ctorParamsScan

/-- Boolean test of `errorSignatureRegex`. -/
def errorSigMatchL (l : List Char) : Bool := (errorCore l).isSome

/-- Boolean test of `eventSignatureRegex`. -/
def eventSigMatchL (l : List Char) : Bool := (eventCore l).isSome

/-- Boolean test of `functionSignatureRegex`. -/
def funcSigMatchL (l : List Char) : Bool := (funcCore l).isSome

/-- Boolean test of `constructorSignatureRegex`. -/
def ctorSigMatchL (l : List Char) : Bool := (ctorCore l).isSome

/-- ABI parameter record (`{ name?, type, indexed? }` of the source; nested
tuple components lie outside the modelled fragment). -/
structure Param where
  name : Option String
  type : String
  indexed : Bool
deriving Repr, DecidableEq

/-- The closed union `from.ReturnType` of `fullAbi.ts`: function, event,
error and constructor items carry their `inputs`; the bare-tuple branch
produces a parameter carrying `components` (the `Tuple` kind). -/
inductive AbiItem where
  | func (name : String) (inputs : List Param) (outputs : List Param) (stateMutability : String)
  | evt (name : String) (inputs : List Param) (anonymous : Bool)
  | err (name : String) (inputs : List Param)
  | ctor (inputs : List Param) (stateMutability : String)
  | tup (components : List Param)
deriving Repr, DecidableEq

/-- Modelled from the spec: canonicalization during classification — the
pseudo-types `uint` and `int` widen to `uint256` / `int256`, every other
token passes through unchanged. -/
def canonTypeL (t : List Char) : List Char :=
  if t = "uint".data then "uint256".data
  else if t = "int".data then "int256".data
  else t

/-- Character class `[A-Za-z0-9_\[\]]` of the type tokens accepted on the
bare-tuple path. -/
def tokenChar (c : Char) : Bool := c.isAlphanum || c == '_' || c == '[' || c == ']'

/-- Trim ASCII whitespace from both ends of a character list. -/
def trimChars (l : List Char) : List Char :=
  ((l.dropWhile isWsChar).reverse.dropWhile isWsChar).reverse

/-- Split a character list at every comma. -/
def splitComma : List Char → List (List Char)
  | [] => [[]]
  | c :: rest =>
    if c = ',' then [] :: splitComma rest
    else
      match splitComma rest with
      | [] => [[c]]
      | g :: gs => (c :: g) :: gs

/-- Split a character list at whitespace characters. -/
def splitWsAux : List Char → List (List Char)
  | [] => [[]]
  | c :: rest =>
    if isWsChar c then [] :: splitWsAux rest
    else
      match splitWsAux rest with
      | [] => [[c]]
      | g :: gs => (c :: g) :: gs

/-- Error message of the modelled `ox` signature parsers. -/
def invalidSignatureMsg : String := "invalid ABI signature"

/-- Error message for an empty bare type list (`InvalidTupleError`). -/
def invalidTupleMsg : String := "invalid tuple: empty type list"

/-- Error message for a malformed bare-tuple type token. -/
def invalidTupleTokenMsg : String := "invalid tuple: malformed type token"

/-- Error message for a malformed parameter declaration. -/
def invalidParamMsg : String := "invalid parameter"

/-- Inner-type-list stage of the bare-tuple parse: split the
comma-separated list, trim entries, drop empties, canonicalize
`uint`/`int`, validate every token against `[A-Za-z0-9_\[\]]+`, and fail
on an empty resulting list. -/
def tupleInner (inner : List Char) : Except String AbiItem :=
  if ((((splitComma inner).map trimChars).filter (fun e => !e.isEmpty)).map
      canonTypeL).all (fun e => !e.isEmpty && e.all tokenChar) then
    if ((((splitComma inner).map trimChars).filter (fun e => !e.isEmpty)).map
        canonTypeL).isEmpty then .error invalidTupleMsg
    else
      .ok (.tup (((((splitComma inner).map trimChars).filter
        (fun e => !e.isEmpty)).map canonTypeL).map
          (fun e => ⟨none, String.mk e, false⟩)))
  else .error invalidTupleTokenMsg

/-- Modelled from the spec: the bare-tuple parse performed by
`AbiParameters.from` (external `ox`/abitype) on the tuple branch — trim,
strip the outer parentheses, and parse the inner comma-separated type
list through `tupleInner`. -/
def tupleFromL (l : List Char) : Except String AbiItem :=
  match trimChars l with
  | c :: rest =>
    if c = '(' then
      if rest.getLast? = some ')' then tupleInner rest.dropLast
      else .error invalidTupleTokenMsg
    else .error invalidTupleTokenMsg
  | [] => .error invalidTupleTokenMsg

/-- Build a parameter from a validated type token, optional name and
indexed flag. -/
def paramOfTokens (t : List Char) (nm : Option (List Char)) (ix : Bool) : Except String Param :=
  if !t.isEmpty && t.all tokenChar then
    .ok ⟨nm.map String.mk, String.mk (canonTypeL t), ix⟩
  else .error invalidParamMsg

/-- Modelled from the spec: parsing of one Solidity parameter declaration
(`type [indexed] [name]`) as performed by the external `ox` signature
parsers; nested tuple components lie outside the modelled fragment. -/
def parseParamEntry (entry : List Char) : Except String Param :=
  match (splitWsAux entry).filter (fun e => !e.isEmpty) with
  | [t] => paramOfTokens t none false
  | [t, w] =>
    if w = "indexed".data then paramOfTokens t none true
    else paramOfTokens t (some w) false
  | [t, w, n] =>
    if w = "indexed".data then paramOfTokens t (some n) true
    else .error invalidParamMsg
  | _ => .error invalidParamMsg

/-- Parse a comma-separated parameter list substring. -/
def parseParamList (l : List Char) : Except String (List Param) :=
  let entries := (splitComma l).map trimChars
  if entries = [[]] then .ok []
  else entries.mapM parseParamEntry

/-- Modelled from the spec: `AbiError.from` of the external `ox` library —
parse `error <identifier>(<params>)` per the §4.1 error grammar. -/
def abiErrorFromL (l : List Char) : Except String AbiItem :=
  match errorCore l with
  | none => .error invalidSignatureMsg
  | some np => (parseParamList np.2).map (fun ins => .err (String.mk np.1) ins)

/-- Modelled from the spec: `AbiEvent.from` of the external `ox` library —
parse `event <identifier>(<params>)`, each parameter optionally
`indexed`. -/
def abiEventFromL (l : List Char) : Except String AbiItem :=
  match eventCore l with
  | none => .error invalidSignatureMsg
  | some np => (parseParamList np.2).map (fun ins => .evt (String.mk np.1) ins false)

/-- Modelled from the spec: `AbiFunction.from` of the external `ox`
library — parse
`function <identifier>(<params>) [external|public] [mutability] [returns (<returns>)]`. -/
def abiFunctionFromL (l : List Char) : Except String AbiItem :=
  match funcCore l with
  | none => .error invalidSignatureMsg
  | some npt =>
    (parseParamList npt.2.1).bind (fun ins =>
      (match npt.2.2.rets with
        | none => Except.ok []
        | some r => parseParamList r).map (fun outs =>
          .func (String.mk npt.1) ins outs
            (match npt.2.2.mutability with
              | some m => String.mk m
              | none => "nonpayable")))

/-- Modelled from the spec: `AbiConstructor.from` of the external `ox`
library — parse `constructor(<params>) [payable]`. -/
def abiConstructorFromL (l : List Char) : Except String AbiItem :=
  match ctorCore l with
  | none => .error invalidSignatureMsg
  | some pm =>
    (parseParamList pm.1).map (fun ins =>
      .ctor ins (match pm.2 with
        | some m => String.mk m
        | none => "nonpayable"))

/-- The classifier `from` of `fullAbi.ts` (source name `from`, a Lean
keyword) on character lists: ordered regex dispatch with the synthesized
`function ` prefix as fallback. -/
def fromSigL (l : List Char) : Except String AbiItem :=
  if isTupleMatchL l then tupleFromL l
  else if errorSigMatchL l then abiErrorFromL l
  else if eventSigMatchL l then abiEventFromL l
  else if funcSigMatchL l then abiFunctionFromL l
  else if ctorSigMatchL l then abiConstructorFromL l
  else abiFunctionFromL ("function ".data ++ l)

/-- The classifier `from` of `fullAbi.ts` on strings. -/
def fromSig (s : String) : Except String AbiItem := fromSigL s.data

/-- Deterministic placeholder digest for signatures outside the Keccak
table: the character codes padded with zeros to 32 bytes. -/
def fakeDigest (s : String) : Bytes :=
  List.take 32 (s.data.map (fun c => c.toNat % 256) ++ List.replicate 32 0)

/-- Modelled from the spec: the Keccak-256 digest of a canonical
signature, supplied by the external `ox` library.  The digests of the
signatures exercised by the specification and the repository's tests are
tabulated; any other signature receives a deterministic placeholder
digest (in the dispatch layer the hash only serves as a fixed 32-byte
identifier of a signature). -/
def keccakSig (s : String) : Bytes :=
  if s = "transfer(address,uint256)" then
    [169, 5, 156, 187, 42, 176, 158, 178, 25, 88, 63, 74,
     89, 165, 208, 98, 58, 222, 52, 109, 150, 43, 205, 78,
     70, 177, 29, 160, 71, 201, 4, 155]
  else if s = "Transfer(address,address,uint256)" then
    [221, 242, 82, 173, 27, 226, 200, 155, 105, 194, 176, 104,
     252, 55, 141, 170, 149, 43, 167, 241, 99, 196, 161, 22,
     40, 245, 90, 77, 245, 35, 179, 239]
  else fakeDigest s

/-- Canonical signature string `name(type,...,type)` of a named item. -/
def sigOfNameInputs (n : String) (ins : List Param) : String :=
  n ++ "(" ++ String.intercalate "," (ins.map (fun p => p.type)) ++ ")"

/-- First four bytes of the canonical signature digest (the selector). -/
def selectorOf (n : String) (ins : List Param) : Bytes :=
  (keccakSig (sigOfNameInputs n ins)).take 4

/-- Full 32-byte signature digest (an event's topic0). -/
def topicOf (n : String) (ins : List Param) : Bytes :=
  keccakSig (sigOfNameInputs n ins)

/-- Big-endian byte rendering of a natural number at a fixed width. -/
def natToBeBytes : Nat → Nat → Bytes
  | 0, _ => []
  | k + 1, n => natToBeBytes k (n / 256) ++ [n % 256]

/-- Big-endian byte reading of a natural number. -/
def beBytesToNat (bs : Bytes) : Nat := bs.foldl (fun a b => a * 256 + b) 0

/-- Value of one hexadecimal digit character, case-insensitive. -/
def hexDigitVal? (c : Char) : Option Nat :=
  if '0' ≤ c ∧ c ≤ '9' then some (c.toNat - 48)
  else if 'a' ≤ c ∧ c ≤ 'f' then some (c.toNat - 87)
  else if 'A' ≤ c ∧ c ≤ 'F' then some (c.toNat - 55)
  else none

/-- Bytes of an even-length run of hexadecimal digit characters. -/
def hexPairsToBytes : List Char → Option Bytes
  | [] => some []
  | c1 :: c2 :: rest =>
    match hexDigitVal? c1, hexDigitVal? c2, hexPairsToBytes rest with
    | some hi, some lo, some bs => some ((hi * 16 + lo) :: bs)
    | _, _, _ => none
  | _ => none

/-- Parse a `0x`-prefixed 20-byte address string. -/
def parseAddress? (s : String) : Option Bytes :=
  match s.data with
  | '0' :: 'x' :: rest =>
    if rest.length = 40 then hexPairsToBytes rest else none
  | _ => none

/-- Lowercase hexadecimal digit character of a nibble. -/
def hexCharOfNibble (n : Nat) : Char :=
  if n < 10 then Char.ofNat (48 + n) else Char.ofNat (87 + n)

/-- Lowercase hexadecimal character rendering of a byte list. -/
def bytesToHexL (bs : Bytes) : List Char :=
  bs.flatMap (fun b => [hexCharOfNibble (b / 16 % 16), hexCharOfNibble (b % 16)])

/-- The `0x`-prefixed lowercase hexadecimal string of a byte list. -/
def hexStringOfBytes (bs : Bytes) : String :=
  String.mk ('0' :: 'x' :: bytesToHexL bs)

/-- Modelled from the spec: the EIP-55 checksummed rendering of an address
(Keccak-based, computed inside the external `ox` library).  Modelled as
the identity on the lowercase hexadecimal rendering, which is exact for
addresses whose hexadecimal digits are all numeric — the addresses
exercised here. -/
def checksumAddress (s : String) : String := s

/-- Parse a decimal numeric string. -/
def parseDecimal? (l : List Char) : Option Nat :=
  if !l.isEmpty && l.all Char.isDigit then
    some (l.foldl (fun a c => a * 10 + (c.toNat - 48)) 0)
  else none

/-- Decoded logical values: arbitrary-precision integers, checksummed hex
address strings, booleans. -/
inductive Value where
  | int (n : Nat)
  | addr (s : String)
  | bool (b : Bool)
deriving Repr, DecidableEq

/-- Error message of the ABI coder's upfront argument-count check (the
`ArityError` of the specification). -/
def lengthMismatchMsg : String := "ABI encoding length mismatch"

/-- Error message for a payload whose size does not cover the declared
parameter words. -/
def dataSizeMsg : String := "ABI decoding data size mismatch"

/-- Error message for an unsupported parameter type (outside the modelled
statically sized fragment). -/
def unsupportedTypeMsg : String := "unsupported parameter type"

/-- Error message for an unparsable or out-of-range `uint256` argument. -/
def invalidUintMsg : String := "invalid uint256 value"

/-- Error message for an unparsable address argument. -/
def invalidAddressMsg : String := "invalid address value"

/-- Error message for an invalid boolean argument or word. -/
def invalidBoolMsg : String := "invalid boolean value"

/-- Error message of the selector check in call/revert data decoding. -/
def invalidSelectorMsg : String := "invalid selector"

/-- Error message for an event payload whose topics do not fit the
event. -/
def topicsMismatchMsg : String := "event topics mismatch"

/-- Error message for constructor data that does not start with the given
bytecode. -/
def bytecodeMismatchMsg : String := "bytecode prefix mismatch"

/-- Error message of the modelled not-found outcome of the `ox` ABI-array
lookup. -/
def notFoundMsg : String := "item not found"

/-- Modelled from the spec: 32-byte head-word encoding of one statically
sized value from its string argument, as the external `ox`
`AbiParameters.encode` performs it — `uint256` big-endian, `address`
left-padded to the slot, `bool` as the 0/1 word. -/
def encodeWord (ty : String) (arg : String) : Except String Bytes :=
  if ty = "uint256" then
    match parseDecimal? arg.data with
    | some n => if n < 2 ^ 256 then .ok (natToBeBytes 32 n) else .error invalidUintMsg
    | none => .error invalidUintMsg
  else if ty = "address" then
    match parseAddress? arg with
    | some bs => .ok (List.replicate 12 0 ++ bs)
    | none => .error invalidAddressMsg
  else if ty = "bool" then
    if arg = "true" then .ok (natToBeBytes 32 1)
    else if arg = "false" then .ok (natToBeBytes 32 0)
    else .error invalidBoolMsg
  else .error unsupportedTypeMsg

/-- Modelled from the spec: decoding of one 32-byte head word back to a
typed value — integers arbitrary-precision, addresses as checksummed hex
strings, booleans strict 0/1. -/
def decodeWord (ty : String) (w : Bytes) : Except String Value :=
  if ty = "uint256" then .ok (.int (beBytesToNat w))
  else if ty = "address" then
    .ok (.addr (checksumAddress (hexStringOfBytes (w.drop 12))))
  else if ty = "bool" then
    match beBytesToNat w with
    | 0 => .ok (.bool false)
    | 1 => .ok (.bool true)
    | _ => .error invalidBoolMsg
  else .error unsupportedTypeMsg

/-- The logical value denoted by an argument string at a parameter type:
what a round trip through encode and decode canonically returns. -/
def interpretArg (ty : String) (arg : String) : Value :=
  if ty = "uint256" then
    match parseDecimal? arg.data with
    | some n => .int n
    | none => .int 0
  else if ty = "address" then
    match parseAddress? arg with
    | some bs => .addr (checksumAddress (hexStringOfBytes bs))
    | none => .addr arg
  else if ty = "bool" then .bool (arg = "true")
  else .int 0

/-- Interpretation of a positional argument list against a parameter
list. -/
def interpretArgs (ps : List Param) (args : List String) : List Value :=
  (ps.zip args).map (fun pa => interpretArg pa.1.type pa.2)

/-- Concatenated head words of a zipped parameter/argument list. -/
def encodeWords : List (Param × String) → Except String Bytes
  | [] => .ok []
  | pa :: rest =>
    (encodeWord pa.1.type pa.2).bind (fun w =>
      (encodeWords rest).map (fun ws => w ++ ws))

/-- Modelled from the spec: `AbiParameters.encode` of the external `ox`
library restricted to statically sized parameters — an upfront
argument-count check followed by the concatenation of the 32-byte head
words. -/
def encodeParams (ps : List Param) (args : List String) : Except String Bytes :=
  if ps.length = args.length then encodeWords (ps.zip args)
  else .error lengthMismatchMsg

/-- Modelled from the spec: packed encoding of one value — concatenated at
its type's width with no 32-byte slot padding. -/
def encodePackedWord (ty : String) (arg : String) : Except String Bytes :=
  if ty = "uint256" then
    match parseDecimal? arg.data with
    | some n => if n < 2 ^ 256 then .ok (natToBeBytes 32 n) else .error invalidUintMsg
    | none => .error invalidUintMsg
  else if ty = "address" then
    match parseAddress? arg with
    | some bs => .ok bs
    | none => .error invalidAddressMsg
  else if ty = "bool" then
    if arg = "true" then .ok [1]
    else if arg = "false" then .ok [0]
    else .error invalidBoolMsg
  else .error unsupportedTypeMsg

/-- Concatenated packed pieces of a zipped type/argument list. -/
def packedWords : List (String × String) → Except String Bytes
  | [] => .ok []
  | ta :: rest =>
    (encodePackedWord ta.1 ta.2).bind (fun w =>
      (packedWords rest).map (fun ws => w ++ ws))

/-- Modelled from the spec: `AbiParameters.encodePacked` of the external
`ox` library on the modelled statically sized types. -/
def encodePacked (tys : List String) (args : List String) : Except String Bytes :=
  if tys.length = args.length then packedWords (tys.zip args)
  else .error lengthMismatchMsg

/-- Modelled from the spec: `AbiParameters.decode` restricted to
statically sized parameters — split the payload into consecutive 32-byte
words and decode each against its parameter. -/
def decodeParams : List Param → Bytes → Except String (List Value)
  | [], _ => .ok []
  | p :: ps, data =>
    if data.length < 32 then .error dataSizeMsg
    else
      (decodeWord p.type (data.take 32)).bind (fun v =>
        (decodeParams ps (data.drop 32)).map (fun vs => v :: vs))

/-- Modelled from the spec: `AbiFunction.encodeData` — the 4-byte selector
followed by the ABI-encoded arguments. -/
def abiFunctionEncodeData (n : String) (ins : List Param) (args : List String) :
    Except String Bytes :=
  (encodeParams ins args).map (fun d => selectorOf n ins ++ d)

/-- Modelled from the spec: `AbiFunction.decodeData` — check the selector
region and decode the argument words following it. -/
def abiFunctionDecodeData (n : String) (ins : List Param) (data : Bytes) :
    Except String (List Value) :=
  if data.take 4 = selectorOf n ins then decodeParams ins (data.drop 4)
  else .error invalidSelectorMsg

/-- Modelled from the spec: `AbiError.encode` — selector-prefixed revert
data, structurally as for functions. -/
def abiErrorEncode (n : String) (ins : List Param) (args : List String) :
    Except String Bytes :=
  (encodeParams ins args).map (fun d => selectorOf n ins ++ d)

/-- Modelled from the spec: `AbiError.decode` — check the selector region
and decode the argument words following it. -/
def abiErrorDecode (n : String) (ins : List Param) (data : Bytes) :
    Except String (List Value) :=
  if data.take 4 = selectorOf n ins then decodeParams ins (data.drop 4)
  else .error invalidSelectorMsg

/-- Topic words of a zipped indexed-parameter/argument list. -/
def topicWords : List (Param × String) → Except String (List Bytes)
  | [] => .ok []
  | pa :: rest =>
    (encodeWord pa.1.type pa.2).bind (fun w =>
      (topicWords rest).map (fun ws => w :: ws))

/-- Modelled from the spec and the repository's event test:
`AbiEvent.encode` — topic0 is the event's signature hash (omitted for
anonymous events) and the positional arguments supply the indexed
parameters, each encoded as one padded topic word; arguments beyond the
indexed parameters are not consumed, and the non-indexed parameters do
not appear in the output. -/
def abiEventEncode (n : String) (ins : List Param) (anonymous : Bool)
    (args : List String) : Except String (List Bytes) :=
  let indexed := ins.filter (fun p => p.indexed)
  if args.length < indexed.length then .error lengthMismatchMsg
  else
    (topicWords (indexed.zip (args.take indexed.length))).map (fun ts =>
      if anonymous then ts else topicOf n ins :: ts)

/-- The composite payload object `\x7b data?, topics?, bytecode? \x7d` a
caller may hand to `decode`. -/
structure Composite where
  dataField : Option Bytes
  topics : Option (List Bytes)
  bytecode : Option Bytes
deriving Repr, DecidableEq

/-- A `decode` payload: either a flat byte string or a composite
object. -/
inductive Payload where
  | str (hex : Bytes)
  | obj (c : Composite)
deriving Repr, DecidableEq

/-- A `decode` result: a positional value list, or for events the
name-keyed mapping `ox` returns. -/
inductive Decoded where
  | values (vs : List Value)
  | record (fields : List (String × Value))
deriving Repr, DecidableEq

/-- Decoded values of a zipped parameter/topic-word list. -/
def decodeTopicWords : List (Param × Bytes) → Except String (List Value)
  | [] => .ok []
  | pw :: rest =>
    (decodeWord pw.1.type pw.2).bind (fun v =>
      (decodeTopicWords rest).map (fun vs => v :: vs))

/-- Interleave indexed and non-indexed decoded values back into the
declaration order of the inputs, keyed by parameter name. -/
def mergeEvent : List Param → List Value → List Value → List (String × Value)
  | [], _, _ => []
  | p :: ps, ivs, nvs =>
    if p.indexed then
      match ivs with
      | v :: ivs2 => (p.name.getD "", v) :: mergeEvent ps ivs2 nvs
      | [] => []
    else
      match nvs with
      | v :: nvs2 => (p.name.getD "", v) :: mergeEvent ps ivs nvs2
      | [] => []

/-- The argument topics of an event log: all topics for an anonymous
event, otherwise the topics after a topic0 that must equal the event's
signature hash. -/
def eventArgTopics (n : String) (ins : List Param) (anonymous : Bool)
    (ts : List Bytes) : Except String (List Bytes) :=
  if anonymous then .ok ts
  else
    match ts with
    | t0 :: rest => if t0 = topicOf n ins then .ok rest else .error topicsMismatchMsg
    | [] => .error topicsMismatchMsg

/-- Modelled from the spec: `AbiEvent.decode` — indexed parameters are
recovered from `topics[1:]` (topic0 is the signature hash and is checked,
not decoded), non-indexed parameters from `data`, and the result is a
name-keyed mapping in declaration order. -/
def abiEventDecode (n : String) (ins : List Param) (anonymous : Bool)
    (c : Composite) : Except String Decoded :=
  match c.topics with
  | none => .error topicsMismatchMsg
  | some ts =>
    (eventArgTopics n ins anonymous ts).bind (fun ats =>
      if ats.length = (ins.filter (fun p => p.indexed)).length then
        (decodeTopicWords ((ins.filter (fun p => p.indexed)).zip ats)).bind (fun ivs =>
          (decodeParams (ins.filter (fun p => !p.indexed)) (c.dataField.getD [])).map
            (fun nvs => .record (mergeEvent ins ivs nvs)))
      else .error topicsMismatchMsg)

/-- Modelled from the spec: `AbiConstructor.encode` — `bytecode ++
ABI-encoded args`. -/
def abiConstructorEncode (ins : List Param) (args : List String)
    (bytecode : Bytes) : Except String Bytes :=
  (encodeParams ins args).map (fun d => bytecode ++ d)

/-- Whether the first byte list is an initial segment of the second. -/
def startsWithBytes : Bytes → Bytes → Bool
  | [], _ => true
  | _ :: _, [] => false
  | p :: ps, c :: cs => (p == c) && startsWithBytes ps cs

/-- Modelled from the spec: `AbiConstructor.decode` — strip the bytecode
prefix and decode the remaining bytes as the constructor's parameter
tuple. -/
def abiConstructorDecode (ins : List Param) (bytecode : Bytes) (data : Bytes) :
    Except String (List Value) :=
  if startsWithBytes bytecode data then decodeParams ins (data.drop bytecode.length)
  else .error bytecodeMismatchMsg

/-- The `getParameter` operation of `fullAbi.ts`: `inputs` for the four
keyword kinds, `components` (when non-empty) for the tuple kind, and the
empty list otherwise. -/
def getParameter : AbiItem → List Param
  | .func _ ins _ _ => ins
  | .evt _ ins _ => ins
  | .err _ ins => ins
  | .ctor ins _ => ins
  | .tup comps => if comps.length > 0 then comps else []

/-- The encoded output of `encode`: flat call/revert/constructor/tuple
bytes, or the topics object of an event. -/
inductive Out where
  | flat (bytes : Bytes)
  | topics (ts : List Bytes)
deriving Repr, DecidableEq

/-- The options object of `encode` (`\x7b bytecode?, packed? \x7d`). -/
structure EncodeOptions where
  bytecode : Option Bytes
  packed : Bool
deriving Repr, DecidableEq

/-- The `encode` operation of `fullAbi.ts`: dispatch on the item kind; the
unmatched fall-through (an empty tuple) returns `null` (`none`). -/
def encode (abiItem : AbiItem) (args : List String) (options : EncodeOptions) :
    Except String (Option Out) :=
  match abiItem with
  | .func n ins _ _ => (abiFunctionEncodeData n ins args).map (fun b => some (.flat b))
  | .evt n ins anon => (abiEventEncode n ins anon args).map (fun ts => some (.topics ts))
  | .err n ins => (abiErrorEncode n ins args).map (fun b => some (.flat b))
  | .ctor ins _ =>
    (abiConstructorEncode ins args (options.bytecode.getD [])).map (fun b => some (.flat b))
  | .tup comps =>
    if comps.length > 0 then
      if options.packed then
        (encodePacked (comps.map (fun c => c.type)) args).map (fun b => some (.flat b))
      else (encodeParams comps args).map (fun b => some (.flat b))
    else .ok none

/-- Shape-error message of the function branch of `decode` (verbatim from
the source). -/
def funcShapeMsg : String := "Function decoding requires topics and data object"

/-- Shape-error message of the event branch of `decode` (verbatim from the
source). -/
def evtShapeMsg : String := "Event decoding requires topics and data object"

/-- Shape-error message of the error branch of `decode` (verbatim from the
source). -/
def errShapeMsg : String := "Error decoding requires topics and data object"

/-- Shape-error message of the constructor branch of `decode` (verbatim
from the source). -/
def ctorShapeMsg : String := "Constructor decoding requires \x7b bytecode, data \x7d object"

/-- Shape-error message of the tuple branch of `decode` (verbatim from the
source, which says `Struct`). -/
def structShapeMsg : String := "Struct decoding requires topics and data object"

/-- The `decode` operation of `fullAbi.ts`: per-kind payload shape checks
with the verbatim shape messages, then the kind's codec; the unmatched
fall-through (an empty tuple) returns the empty list. -/
def decode (abiItem : AbiItem) (payload : Payload) : Except String Decoded :=
  match abiItem with
  | .func n ins _ _ =>
    match payload with
    | .str data => (abiFunctionDecodeData n ins data).map .values
    | .obj _ => .error funcShapeMsg
  | .evt n ins anon =>
    match payload with
    | .str _ => .error evtShapeMsg
    | .obj c => abiEventDecode n ins anon c
  | .err n ins =>
    match payload with
    | .str data => (abiErrorDecode n ins data).map .values
    | .obj _ => .error errShapeMsg
  | .ctor ins _ =>
    match payload with
    | .str _ => .error ctorShapeMsg
    | .obj c =>
      match c.bytecode with
      | none => .error ctorShapeMsg
      | some bc => (abiConstructorDecode ins bc (c.dataField.getD [])).map .values
  | .tup comps =>
    if comps.length > 0 then
      match payload with
      | .str data => (decodeParams comps data).map .values
      | .obj _ => .error structShapeMsg
    else .ok (.values [])

/-- Name of a named item. -/
def itemName? : AbiItem → Option String
  | .func n _ _ _ => some n
  | .evt n _ _ => some n
  | .err n _ => some n
  | _ => none

/-- Whether a string is a `0x`-prefixed hexadecimal identifier of the
given digit count. -/
def isHexIdOfLength (len : Nat) (s : String) : Bool :=
  match s.data with
  | '0' :: 'x' :: rest => rest.length == len && rest.all (fun c => (hexDigitVal? c).isSome)
  | _ => false

/-- The hexadecimal identity of an item at an identifier width: the
selector for functions and errors (8 hex digits), the topic hash for
events (64 hex digits). -/
def hexIdOf? (item : AbiItem) (len : Nat) : Option String :=
  match item with
  | .func n ins _ _ => if len = 8 then some (hexStringOfBytes (selectorOf n ins)) else none
  | .err n ins => if len = 8 then some (hexStringOfBytes (selectorOf n ins)) else none
  | .evt n ins _ => if len = 64 then some (hexStringOfBytes (topicOf n ins)) else none
  | _ => none

/-- Whether an item matches a lookup identifier: by canonical selector for
a 4-byte hex identifier, by canonical topic hash for a 32-byte hex
identifier, by name otherwise. -/
def itemMatches (identifier : String) (item : AbiItem) : Bool :=
  if isHexIdOfLength 8 identifier then hexIdOf? item 8 == some identifier
  else if isHexIdOfLength 64 identifier then hexIdOf? item 64 == some identifier
  else itemName? item == some identifier

/-- Modelled from the spec: the identifier lookup of the external `ox`
`AbiFunction.fromAbi` — the first item whose canonical selector/topic or
name matches the identifier wins; a missing match raises the not-found
error (which the caller converts to `null`). -/
def abiItemFromAbi (items : List AbiItem) (identifier : String) :
    Except String AbiItem :=
  match items.find? (itemMatches identifier) with
  | some it => .ok it
  | none => .error notFoundMsg

/-- The JSON `type` tag string of an item. -/
def typeTagStr : AbiItem → String
  | .func _ _ _ _ => "function"
  | .evt _ _ _ => "event"
  | .err _ _ => "error"
  | .ctor _ _ => "constructor"
  | .tup _ => "tuple"

/-- Whether an item's `type` tag lies in
`["function", "event", "error", "constructor"]`. -/
def isJsonKind (item : AbiItem) : Bool :=
  match item with
  | .tup _ => false
  | _ => true

/-- Modelled from the spec: `JSON.stringify` of an ABI item.
Classification of the result depends only on the leading brace, so the
rendering is kept schematic. -/
def jsonStringify (item : AbiItem) : String :=
  "\x7b\"type\":\"" ++ typeTagStr item ++ "\"\x7d"

/-- The identifier-less branch of `fromAbi`: the first item of a JSON
kind, re-classified through its JSON rendering. -/
def fromAbiRest (abi : List AbiItem) : Except String (Option AbiItem) :=
  match abi.find? isJsonKind with
  | some first => (fromSig (jsonStringify first)).map some
  | none => .ok none

/-- The `fromAbi` lookup of `fullAbi.ts` on an ABI array: empty arrays
yield `null`; a truthy identifier is looked up with the not-found error
caught to `null`; otherwise the first JSON-kind item is re-classified. -/
def fromAbi (abi : List AbiItem) (identifier : Option String) :
    Except String (Option AbiItem) :=
  if abi.isEmpty then .ok none
  else if identifier.getD "" ≠ "" then
    match abiItemFromAbi abi (identifier.getD "") with
    | .ok it => .ok (some it)
    | .error _ => .ok none
  else fromAbiRest abi

end MiniEthTool

namespace MiniEthTool

/-- Inputs of the `transfer(address,uint256)` test function. -/
def transferIns : List Param :=
  [⟨some "to", "address", false⟩, ⟨some "amount", "uint256", false⟩]

/-- The `transfer(address,uint256)` function of the repository's ABI-array
test fixture. -/
def transferFn : AbiItem := .func "transfer" transferIns [] "nonpayable"

/-- Inputs of the `Transfer(address indexed, address indexed, uint256)`
test event. -/
def transferEvtIns : List Param :=
  [⟨some "from", "address", true⟩, ⟨some "to", "address", true⟩,
   ⟨some "value", "uint256", false⟩]

/-- The `Transfer(address,address,uint256)` event of the repository's
event test, with two indexed address parameters. -/
def transferEvt : AbiItem := .evt "Transfer" transferEvtIns false

/-- The two-item ABI array of the repository's `fromAbi` test. -/
def demoAbi : List AbiItem := [transferFn, transferEvt]

/-- The `constructor(address owner, uint256 amount)` of the repository's
constructor test. -/
def ctorEx : AbiItem :=
  .ctor [⟨some "owner", "address", false⟩, ⟨some "amount", "uint256", false⟩] "nonpayable"

instance instDecEqExcept {ε α : Type} [DecidableEq ε] [DecidableEq α] :
    DecidableEq (Except ε α) := fun a b =>
  match a, b with
  | .error e, .error f =>
    if h : e = f then .isTrue (by rw [h])
    else .isFalse (fun hc => by cases hc; exact h rfl)
  | .error _, .ok _ => .isFalse (fun hc => by cases hc)
  | .ok _, .error _ => .isFalse (fun hc => by cases hc)
  | .ok x, .ok y =>
    if h : x = y then .isTrue (by rw [h])
    else .isFalse (fun hc => by cases hc; exact h rfl)

/-- Whether an `Except` value is a success. -/
def isOkE {α : Type} (e : Except String α) : Bool :=
  match e with
  | .ok _ => true
  | .error _ => false

/-- An argument list valid for a parameter list: matching length and every
argument encodable at its parameter's type. -/
def validArgs (ps : List Param) (args : List String) : Bool :=
  (ps.length == args.length) &&
    (ps.zip args).all (fun pa => isOkE (encodeWord pa.1.type pa.2))

theorem natToBeBytes_length (k n : Nat) : (natToBeBytes k n).length = k := by
  induction k generalizing n with
  | zero => rfl
  | succ k ih => simp [natToBeBytes, ih]

theorem beBytesToNat_append_one (xs : Bytes) (b : Nat) :
    beBytesToNat (xs ++ [b]) = beBytesToNat xs * 256 + b := by
  simp [beBytesToNat, List.foldl_append]

theorem beBytesToNat_natToBeBytes (k n : Nat) :
    beBytesToNat (natToBeBytes k n) = n % 256 ^ k := by
  induction k generalizing n with
  | zero => simp [natToBeBytes, beBytesToNat, Nat.mod_one]
  | succ k ih =>
    rw [natToBeBytes, beBytesToNat_append_one, ih, pow_succ,
      mul_comm (256 ^ k) 256, Nat.mod_mul]
    ring

theorem keccakSig_length (s : String) : (keccakSig s).length = 32 := by
  unfold keccakSig
  split
  · rfl
  · split
    · rfl
    · unfold fakeDigest
      simp

theorem selectorOf_length (n : String) (ins : List Param) :
    (selectorOf n ins).length = 4 := by
  unfold selectorOf
  simp [keccakSig_length]

theorem hexPairsToBytes_length (bs : Bytes) :
    ∀ l, hexPairsToBytes l = some bs → l.length = 2 * bs.length := by
  induction bs with
  | nil =>
    intro l h
    rcases l with _ | ⟨c1, _ | ⟨c2, rest⟩⟩
    · rfl
    · simp [hexPairsToBytes] at h
    · unfold hexPairsToBytes at h
      cases h1 : hexDigitVal? c1 <;> rw [h1] at h <;>
        cases h2 : hexDigitVal? c2 <;> rw [h2] at h <;>
          cases h3 : hexPairsToBytes rest <;> rw [h3] at h <;> simp at h
  | cons b bs ih =>
    intro l h
    rcases l with _ | ⟨c1, _ | ⟨c2, rest⟩⟩
    · simp [hexPairsToBytes] at h
    · simp [hexPairsToBytes] at h
    · unfold hexPairsToBytes at h
      cases h1 : hexDigitVal? c1 <;> rw [h1] at h <;>
        cases h2 : hexDigitVal? c2 <;> rw [h2] at h <;>
          cases h3 : hexPairsToBytes rest <;> rw [h3] at h <;> simp at h
      have := ih rest (by rw [h3, h.2])
      simp [this]
      omega

theorem parseAddress?_length (s : String) (bs : Bytes)
    (h : parseAddress? s = some bs) : bs.length = 20 := by
  unfold parseAddress? at h
  split at h
  · split_ifs at h with h40
    · have hlen := hexPairsToBytes_length bs _ h
      omega
  · exact absurd h (by simp)

theorem encodeWord_length (ty arg : String) (w : Bytes)
    (h : encodeWord ty arg = .ok w) : w.length = 32 := by
  unfold encodeWord at h
  by_cases h1 : ty = "uint256"
  · rw [if_pos h1] at h
    cases hp : parseDecimal? arg.data <;> rw [hp] at h <;> dsimp only at h
    · simp at h
    · split_ifs at h with hn
      · simp only [Except.ok.injEq] at h
        rw [← h]
        exact natToBeBytes_length 32 _
  · rw [if_neg h1] at h
    by_cases h2 : ty = "address"
    · rw [if_pos h2] at h
      cases hp : parseAddress? arg <;> rw [hp] at h <;> dsimp only at h
      · simp at h
      · simp only [Except.ok.injEq] at h
        have h20 := parseAddress?_length arg _ hp
        rw [← h]
        simp [h20]
    · rw [if_neg h2] at h
      by_cases h3 : ty = "bool"
      · rw [if_pos h3] at h
        by_cases ht : arg = "true"
        · rw [if_pos ht] at h
          simp only [Except.ok.injEq] at h
          rw [← h]
          exact natToBeBytes_length 32 _
        · rw [if_neg ht] at h
          by_cases hf : arg = "false"
          · rw [if_pos hf] at h
            simp only [Except.ok.injEq] at h
            rw [← h]
            exact natToBeBytes_length 32 _
          · rw [if_neg hf] at h
            simp at h
      · rw [if_neg h3] at h
        simp at h

theorem decodeWord_encodeWord (ty arg : String) (w : Bytes)
    (h : encodeWord ty arg = .ok w) :
    decodeWord ty w = .ok (interpretArg ty arg) := by
  unfold encodeWord at h
  by_cases h1 : ty = "uint256"
  · rw [if_pos h1] at h
    cases hp : parseDecimal? arg.data <;> rw [hp] at h <;> dsimp only at h
    · simp at h
    · rename_i n
      split_ifs at h with hn
      · simp only [Except.ok.injEq] at h
        rw [← h]
        unfold decodeWord interpretArg
        rw [if_pos h1, if_pos h1, hp, beBytesToNat_natToBeBytes]
        have h256 : (256 : Nat) ^ 32 = 2 ^ 256 := by norm_num
        rw [Nat.mod_eq_of_lt (by rw [h256]; exact hn)]
  · rw [if_neg h1] at h
    by_cases h2 : ty = "address"
    · rw [if_pos h2] at h
      cases hp : parseAddress? arg <;> rw [hp] at h <;> dsimp only at h
      · simp at h
      · rename_i bs
        simp only [Except.ok.injEq] at h
        rw [← h]
        unfold decodeWord interpretArg
        rw [if_neg h1, if_pos h2, if_neg h1, if_pos h2, hp]
        have hd : (List.replicate 12 (0 : Nat) ++ bs).drop 12 = bs :=
          List.drop_left' (by simp)
        rw [hd]
    · rw [if_neg h2] at h
      by_cases h3 : ty = "bool"
      · rw [if_pos h3] at h
        by_cases ht : arg = "true"
        · rw [if_pos ht] at h
          simp only [Except.ok.injEq] at h
          rw [← h]
          unfold decodeWord interpretArg
          rw [if_neg h1, if_neg h2, if_pos h3, if_neg h1, if_neg h2, if_pos h3,
            beBytesToNat_natToBeBytes, Nat.mod_eq_of_lt (by norm_num)]
          simp [ht]
        · rw [if_neg ht] at h
          by_cases hf : arg = "false"
          · rw [if_pos hf] at h
            simp only [Except.ok.injEq] at h
            rw [← h]
            unfold decodeWord interpretArg
            rw [if_neg h1, if_neg h2, if_pos h3, if_neg h1, if_neg h2, if_pos h3,
              beBytesToNat_natToBeBytes, Nat.mod_eq_of_lt (by norm_num)]
            have hft : (arg = "true") = False := by
              subst hf
              simp
            simp [hft]
          · rw [if_neg hf] at h
            simp at h
      · rw [if_neg h3] at h
        simp at h

theorem encodeWords_ok (l : List (Param × String))
    (h : l.all (fun pa => isOkE (encodeWord pa.1.type pa.2)) = true) :
    ∃ ws, encodeWords l = .ok ws := by
  induction l with
  | nil => exact ⟨[], rfl⟩
  | cons pa rest ih =>
    simp only [List.all_cons, Bool.and_eq_true] at h
    obtain ⟨hok, hrest⟩ := h
    cases hw : encodeWord pa.1.type pa.2 with
    | error e => rw [hw] at hok; simp [isOkE] at hok
    | ok w =>
      obtain ⟨ws, hws⟩ := ih hrest
      exact ⟨w ++ ws, by rw [encodeWords, hw, hws]; rfl⟩

theorem decodeParams_encodeWords (ps : List Param) :
    ∀ (args : List String) (ws : Bytes), ps.length = args.length →
      encodeWords (ps.zip args) = .ok ws →
      decodeParams ps ws = .ok (interpretArgs ps args) := by
  induction ps with
  | nil =>
    intro args ws _ _
    simp [decodeParams, interpretArgs]
  | cons p ps ih =>
    intro args ws hlen h
    rcases args with _ | ⟨a, args⟩
    · simp at hlen
    · rw [List.zip_cons_cons] at h
      rw [encodeWords] at h
      cases hw : encodeWord p.type a <;> rw [hw] at h
      · simp [Except.bind] at h
      · rename_i w
        cases hrest : encodeWords (ps.zip args) <;> rw [hrest] at h
        · simp [Except.bind, Except.map] at h
        · rename_i ws'
          simp [Except.bind, Except.map] at h
          have hw32 : w.length = 32 := encodeWord_length _ _ _ hw
          have hlen' : ps.length = args.length := by simpa using hlen
          rw [← h, decodeParams]
          have hge : ¬ (w ++ ws').length < 32 := by simp [hw32]
          rw [if_neg hge]
          have htake : (w ++ ws').take 32 = w := by
            rw [← hw32]; exact List.take_left _ _
          have hdrop : (w ++ ws').drop 32 = ws' := by
            rw [← hw32]; exact List.drop_left _ _
          rw [htake, hdrop, decodeWord_encodeWord p.type a w hw,
            ih args ws' hlen' hrest]
          simp [Except.bind, Except.map, interpretArgs]

theorem startsWithBytes_append (p l : Bytes) :
    startsWithBytes p (p ++ l) = true := by
  induction p with
  | nil => rfl
  | cons b p ih => simp [startsWithBytes, ih]

/-- The item kinds whose `encode` output is a flat byte string the
round-trip property can be stated on: function, error, constructor, and
non-empty tuple. -/
def c1Kind : AbiItem → Bool
  | .func _ _ _ _ => true
  | .err _ _ => true
  | .ctor _ _ => true
  | .tup comps => !comps.isEmpty
  | .evt _ _ _ => false

/-- The payload shape `decode` demands for an item, built from `encode`'s
flat output: constructor items need the `\x7b bytecode, data \x7d`
composite, the other flat kinds take the byte string itself. -/
def c1Rewrap (item : AbiItem) (bc : Bytes) (out : Bytes) : Payload :=
  match item with
  | .ctor _ _ => .obj ⟨some out, none, some bc⟩
  | _ => .str out

/-- C9: `getParameter` never fails on a classified item — it returns the
`inputs` of function, event, error and constructor items and the
`components` of a tuple item, preserving declaration order, hence the
empty sequence for an item with no parameters. -/
theorem c9_getParameter_total (item : AbiItem) :
    getParameter item =
      (match item with
        | .func _ ins _ _ => ins
        | .evt _ ins _ => ins
        | .err _ ins => ins
        | .ctor ins _ => ins
        | .tup comps => comps) := by
  cases item with
  | func n ins outs sm => rfl
  | evt n ins anon => rfl
  | err n ins => rfl
  | ctor ins sm => rfl
  | tup comps => cases comps <;> simp [getParameter]

/-- C10: an item matching none of the dispatch branches — the tuple item
with an empty components list — makes `encode` return `null` (not bytes,
not an error) for every argument list, and makes `decode` return the
empty list for every payload. -/
theorem c10_unmatched_null_empty (args : List String) (options : EncodeOptions)
    (payload : Payload) :
    encode (.tup []) args options = .ok none ∧
    decode (.tup []) payload = .ok (.values []) :=
  ⟨rfl, rfl⟩

/-- C1 (amended): for function, error and non-empty tuple items over the
statically sized types, decoding `encode`'s flat output returns the
interpreted logical values (addresses in checksummed hexadecimal form,
integers exact) in declaration order; for constructor items the same
holds once the flat output is rewrapped as the `\x7b bytecode, data \x7d`
composite that `decode` demands.  The direct composition of the original
claim fails for constructor items (see the counterexample) and for event
items, whose `encode` emits topics only. -/
theorem c1_roundtrip_amended (item : AbiItem) (args : List String) (bc : Bytes)
    (hkind : c1Kind item = true)
    (hargs : validArgs (getParameter item) args = true) :
    ∃ out, encode item args ⟨some bc, false⟩ = .ok (some (.flat out)) ∧
      decode item (c1Rewrap item bc out) =
        .ok (.values (interpretArgs (getParameter item) args)) := by
  cases item with
  | evt n ins anon => simp [c1Kind] at hkind
  | func n ins outs sm =>
    simp only [getParameter] at hargs ⊢
    unfold validArgs at hargs
    simp only [Bool.and_eq_true, beq_iff_eq] at hargs
    obtain ⟨hlen, hall⟩ := hargs
    obtain ⟨ws, hws⟩ := encodeWords_ok _ hall
    have henc : encodeParams ins args = .ok ws := by
      unfold encodeParams
      rw [if_pos hlen, hws]
    refine ⟨selectorOf n ins ++ ws, ?_, ?_⟩
    · simp [encode, abiFunctionEncodeData, henc, Except.map]
    · have ht : (selectorOf n ins ++ ws).take 4 = selectorOf n ins :=
        List.take_left' (selectorOf_length n ins)
      have hd : (selectorOf n ins ++ ws).drop 4 = ws :=
        List.drop_left' (selectorOf_length n ins)
      simp [c1Rewrap, decode, abiFunctionDecodeData, ht, hd,
        decodeParams_encodeWords ins args ws hlen hws, Except.map]
  | err n ins =>
    simp only [getParameter] at hargs ⊢
    unfold validArgs at hargs
    simp only [Bool.and_eq_true, beq_iff_eq] at hargs
    obtain ⟨hlen, hall⟩ := hargs
    obtain ⟨ws, hws⟩ := encodeWords_ok _ hall
    have henc : encodeParams ins args = .ok ws := by
      unfold encodeParams
      rw [if_pos hlen, hws]
    refine ⟨selectorOf n ins ++ ws, ?_, ?_⟩
    · simp [encode, abiErrorEncode, henc, Except.map]
    · have ht : (selectorOf n ins ++ ws).take 4 = selectorOf n ins :=
        List.take_left' (selectorOf_length n ins)
      have hd : (selectorOf n ins ++ ws).drop 4 = ws :=
        List.drop_left' (selectorOf_length n ins)
      simp [c1Rewrap, decode, abiErrorDecode, ht, hd,
        decodeParams_encodeWords ins args ws hlen hws, Except.map]
  | ctor ins sm =>
    simp only [getParameter] at hargs ⊢
    unfold validArgs at hargs
    simp only [Bool.and_eq_true, beq_iff_eq] at hargs
    obtain ⟨hlen, hall⟩ := hargs
    obtain ⟨ws, hws⟩ := encodeWords_ok _ hall
    have henc : encodeParams ins args = .ok ws := by
      unfold encodeParams
      rw [if_pos hlen, hws]
    refine ⟨bc ++ ws, ?_, ?_⟩
    · simp [encode, abiConstructorEncode, henc, Except.map]
    · have hd : (bc ++ ws).drop bc.length = ws := List.drop_left _ _
      simp [c1Rewrap, decode, abiConstructorDecode, startsWithBytes_append, hd,
        decodeParams_encodeWords ins args ws hlen hws, Except.map]
  | tup comps =>
    have hne : comps ≠ [] := by
      simp [c1Kind] at hkind
      intro hc
      rw [hc] at hkind
      simp at hkind
    have hpos : comps.length > 0 := List.length_pos.mpr hne
    have hget : getParameter (.tup comps) = comps := by
      simp [getParameter, hpos]
    rw [hget] at hargs ⊢
    unfold validArgs at hargs
    simp only [Bool.and_eq_true, beq_iff_eq] at hargs
    obtain ⟨hlen, hall⟩ := hargs
    obtain ⟨ws, hws⟩ := encodeWords_ok _ hall
    have henc : encodeParams comps args = .ok ws := by
      unfold encodeParams
      rw [if_pos hlen, hws]
    refine ⟨ws, ?_, ?_⟩
    · simp [encode, hpos, henc, Except.map]
    · simp [c1Rewrap, decode, hpos,
        decodeParams_encodeWords comps args ws hlen hws, Except.map]

/-- Demonstration arguments for the `transfer(address,uint256)`
round trip. -/
def c1DemoArgs : List String := ["0x0000000000000000000000000000000000000001", "1000"]

/-- C1 witness: the amended round trip at
`transfer(address,uint256)` with concrete arguments. -/
theorem c1_roundtrip_amended_witness :
    c1Kind transferFn = true ∧
    validArgs (getParameter transferFn) c1DemoArgs = true ∧
    (∃ out, encode transferFn c1DemoArgs ⟨some [], false⟩ = .ok (some (.flat out)) ∧
      decode transferFn (c1Rewrap transferFn [] out) =
        .ok (.values (interpretArgs (getParameter transferFn) c1DemoArgs))) :=
  ⟨by decide, by decide,
    c1_roundtrip_amended transferFn c1DemoArgs [] (by decide) (by decide)⟩

/-- C1 counterexample: the claim's direct composition
`decode(item, encode(item, args))` fails on a constructor item — `encode`
yields a flat byte string while `decode` rejects every flat payload for
constructors with its shape error. -/
theorem c1_counterexample :
    encode ctorEx ["0x0000000000000000000000000000000000000001", "123"] ⟨some [], false⟩ =
      .ok (some (.flat (natToBeBytes 32 1 ++ natToBeBytes 32 123))) ∧
    decode ctorEx (.str (natToBeBytes 32 1 ++ natToBeBytes 32 123)) =
      .error ctorShapeMsg := by
  exact ⟨by decide, rfl⟩

/-- C7: for every ABI array and every non-empty identifier,
`fromAbi` returns exactly the first item whose canonical selector/topic
hash or name matches the identifier, and `Except.ok none` (a
non-exceptional "not found", never an error) when no item matches. -/
theorem c7_fromAbi_first_match (abi : List AbiItem) (identifier : String)
    (h : identifier ≠ "") :
    fromAbi abi (some identifier) = .ok (abi.find? (itemMatches identifier)) := by
  unfold fromAbi abiItemFromAbi
  cases abi with
  | nil => simp
  | cons a rest =>
    rw [if_neg (by simp), if_pos (by simpa using h)]
    cases hf : (a :: rest).find? (itemMatches identifier) <;> simp [hf]

/-- C7 witness: against the repository's test ABI array, the `transfer`
selector `0xa9059cbb` finds the function and the unknown selector
`0x00000000` yields `null` without an error. -/
theorem c7_fromAbi_first_match_witness :
    ("0xa9059cbb" : String) ≠ "" ∧
    fromAbi demoAbi (some "0xa9059cbb") =
      .ok (demoAbi.find? (itemMatches "0xa9059cbb")) ∧
    demoAbi.find? (itemMatches "0xa9059cbb") = some transferFn ∧
    fromAbi demoAbi (some "0x00000000") = .ok none := by
  refine ⟨by decide, c7_fromAbi_first_match demoAbi "0xa9059cbb" (by decide),
    by decide, ?_⟩
  have h0 := c7_fromAbi_first_match demoAbi "0x00000000" (by decide)
  rw [h0]
  decide

theorem topicWords_length : ∀ (l : List (Param × String)) (ws : List Bytes),
    topicWords l = .ok ws → ws.length = l.length := by
  intro l
  induction l with
  | nil =>
    intro ws h
    simp [topicWords] at h
    simp [h]
  | cons pa rest ih =>
    intro ws h
    unfold topicWords at h
    cases hw : encodeWord pa.1.type pa.2 <;> rw [hw] at h
    · simp [Except.bind] at h
    · cases hr : topicWords rest <;> rw [hr] at h
      · simp [Except.bind, Except.map] at h
      · simp [Except.bind, Except.map] at h
        rw [← h]
        simp [ih _ hr]

/-- C2 (amended): `encode` on a non-anonymous event whose arguments
supply exactly the indexed parameters returns a topics-only object —
topic0 is the event's signature hash and each indexed parameter
contributes one further topic (3 topics for `Transfer`); the non-indexed
parameters are not encoded anywhere in the output (no `data` field is
produced; the repository's event test builds `data` separately). -/
theorem c2_event_encode_amended (n : String) (ins : List Param)
    (args : List String) (o : EncodeOptions) (ws : List Bytes)
    (hlen : args.length = (ins.filter (fun p => p.indexed)).length)
    (hw : topicWords ((ins.filter (fun p => p.indexed)).zip args) = .ok ws) :
    encode (.evt n ins false) args o =
      .ok (some (.topics (topicOf n ins :: ws))) ∧
    ws.length = (ins.filter (fun p => p.indexed)).length := by
  have hlt : ¬ args.length < (ins.filter (fun p => p.indexed)).length := by omega
  constructor
  · have htake : args.take (ins.filter (fun p => p.indexed)).length = args := by
      rw [← hlen]
      exact List.take_length ..
    simp [encode, abiEventEncode, hlt, htake, hw, Except.map]
  · have := topicWords_length _ _ hw
    rw [this]
    simp [hlen]

/-- First indexed topic word of the `Transfer` demonstrations. -/
def topicWord1 : Bytes := natToBeBytes 32 1

/-- Second indexed topic word of the `Transfer` demonstrations. -/
def topicWord2 : Bytes := natToBeBytes 32 2

/-- Demonstration arguments supplying the two indexed parameters of the
`Transfer` event. -/
def c2Args : List String :=
  ["0x0000000000000000000000000000000000000001",
   "0x0000000000000000000000000000000000000002"]

/-- C2 witness: the amended event-encode shape at the `Transfer` event —
exactly 3 topics, topic0 the signature hash. -/
theorem c2_event_encode_amended_witness :
    c2Args.length = (transferEvtIns.filter (fun p => p.indexed)).length ∧
    topicWords ((transferEvtIns.filter (fun p => p.indexed)).zip c2Args) =
      .ok [topicWord1, topicWord2] ∧
    (encode (.evt "Transfer" transferEvtIns false) c2Args ⟨none, false⟩ =
      .ok (some (.topics (topicOf "Transfer" transferEvtIns ::
        [topicWord1, topicWord2]))) ∧
      ([topicWord1, topicWord2] : List Bytes).length =
        (transferEvtIns.filter (fun p => p.indexed)).length) :=
  ⟨by decide, by decide,
    c2_event_encode_amended "Transfer" transferEvtIns c2Args ⟨none, false⟩
      [topicWord1, topicWord2] (by decide) (by decide)⟩

/-- C2 counterexample: on the `Transfer` event, `encode` succeeds on the
two indexed arguments alone and returns a topics-only object; the
composite carries no `data` field, so the non-indexed `value` parameter
is not ABI-encoded into the output — decoding the encoded composite
immediately fails for lack of data. -/
theorem c2_counterexample :
    encode transferEvt c2Args ⟨none, false⟩ =
      .ok (some (.topics
        [topicOf "Transfer" transferEvtIns, topicWord1, topicWord2])) ∧
    decode transferEvt
      (.obj ⟨none, some [topicOf "Transfer" transferEvtIns, topicWord1, topicWord2],
        none⟩) = .error dataSizeMsg := by
  exact ⟨by decide, by decide⟩

/-- C8 (amended): `encode` demands exactly
`parametersOf(item).length` positional arguments for function, error,
constructor, and non-empty tuple items, failing with the length-mismatch
(arity) error otherwise; but for event items the arguments supply only
the indexed parameters (encoding can succeed with fewer arguments than
`parametersOf(item).length`), and an item matching no branch (the empty
tuple) returns `null` regardless of the argument count. -/
theorem c8_arity_amended :
    (∀ n ins outs sm args o, args.length ≠ (getParameter (.func n ins outs sm)).length →
        encode (.func n ins outs sm) args o = .error lengthMismatchMsg) ∧
    (∀ n ins args o, args.length ≠ (getParameter (.err n ins)).length →
        encode (.err n ins) args o = .error lengthMismatchMsg) ∧
    (∀ ins sm args o, args.length ≠ (getParameter (.ctor ins sm)).length →
        encode (.ctor ins sm) args o = .error lengthMismatchMsg) ∧
    (∀ comps args o, comps ≠ [] → args.length ≠ (getParameter (.tup comps)).length →
        encode (.tup comps) args o = .error lengthMismatchMsg) ∧
    (∀ args o, encode (.tup []) args o = .ok none) ∧
    (∀ n ins anon args o ws,
        topicWords ((ins.filter (fun p => p.indexed)).zip
          (args.take (ins.filter (fun p => p.indexed)).length)) = .ok ws →
        (ins.filter (fun p => p.indexed)).length ≤ args.length →
        encode (.evt n ins anon) args o =
          .ok (some (.topics (if anon then ws else topicOf n ins :: ws)))) := by
  refine ⟨?_, ?_, ?_, ?_, ?_, ?_⟩
  · intro n ins outs sm args o hne
    simp only [getParameter] at hne
    have hx : ¬ ins.length = args.length := fun hc => hne (by rw [hc])
    simp [encode, abiFunctionEncodeData, encodeParams, hx, Except.map]
  · intro n ins args o hne
    simp only [getParameter] at hne
    have hx : ¬ ins.length = args.length := fun hc => hne (by rw [hc])
    simp [encode, abiErrorEncode, encodeParams, hx, Except.map]
  · intro ins sm args o hne
    simp only [getParameter] at hne
    have hx : ¬ ins.length = args.length := fun hc => hne (by rw [hc])
    simp [encode, abiConstructorEncode, encodeParams, hx, Except.map]
  · intro comps args o hcne hne
    have hpos : comps.length > 0 := List.length_pos.mpr hcne
    have hget : getParameter (.tup comps) = comps := by
      simp [getParameter, hpos]
    rw [hget] at hne
    have hx : ¬ comps.length = args.length := fun hc => hne (by rw [hc])
    cases hp : o.packed
    · simp [encode, hpos, hp, encodeParams, hx, Except.map]
    · simp [encode, hpos, hp, encodePacked, hx, Except.map]
  · intro args o
    rfl
  · intro n ins anon args o ws hw hle
    have hlt : ¬ args.length < (ins.filter (fun p => p.indexed)).length := by omega
    simp [encode, abiEventEncode, hlt, hw, Except.map]

/-- C8 witness: a one-argument call against the two-parameter `transfer`
function raises the arity error. -/
theorem c8_arity_amended_witness :
    (["5"] : List String).length ≠ (getParameter transferFn).length ∧
    encode transferFn ["5"] ⟨none, false⟩ = .error lengthMismatchMsg :=
  ⟨by decide,
    c8_arity_amended.1 "transfer" transferIns [] "nonpayable" ["5"] ⟨none, false⟩
      (by decide)⟩

/-- C8 counterexample: on the `Transfer` event, `parametersOf` has length
3 yet `encode` succeeds with only 2 positional arguments (the indexed
ones) instead of failing with an arity error. -/
theorem c8_counterexample :
    (getParameter transferEvt).length = 3 ∧
    encode transferEvt c2Args ⟨none, false⟩ =
      .ok (some (.topics
        [topicOf "Transfer" transferEvtIns, topicWord1, topicWord2])) := by
  exact ⟨by decide, by decide⟩

/-- The five shape-error messages `decode` raises. -/
def shapeMsgs : List String :=
  [funcShapeMsg, evtShapeMsg, errShapeMsg, ctorShapeMsg, structShapeMsg]

/-- The error messages of the modelled inner codecs, all distinct from
the shape messages. -/
def innerMsgs : List String :=
  [lengthMismatchMsg, dataSizeMsg, unsupportedTypeMsg, invalidUintMsg,
   invalidAddressMsg, invalidBoolMsg, invalidSelectorMsg, topicsMismatchMsg,
   bytecodeMismatchMsg]

/-- Whether a payload has the shape the item's `decode` branch demands. -/
def shapeOk (item : AbiItem) (payload : Payload) : Bool :=
  match item, payload with
  | .func _ _ _ _, .str _ => true
  | .err _ _, .str _ => true
  | .evt _ _ _, .obj _ => true
  | .ctor _ _, .obj c => c.bytecode.isSome
  | .tup _, .str _ => true
  | .tup comps, .obj _ => comps.isEmpty
  | _, _ => false

theorem exceptMap_error {α β : Type} (f : α → β) (e : Except String α)
    (m : String) (h : e.map f = .error m) : e = .error m := by
  cases e with
  | ok a => simp [Except.map] at h
  | error e0 =>
    simp [Except.map] at h
    rw [h]

theorem decodeWord_error_mem (ty : String) (w : Bytes) (m : String)
    (h : decodeWord ty w = .error m) : m ∈ innerMsgs := by
  unfold decodeWord at h
  by_cases h1 : ty = "uint256"
  · rw [if_pos h1] at h
    simp at h
  · rw [if_neg h1] at h
    by_cases h2 : ty = "address"
    · rw [if_pos h2] at h
      simp at h
    · rw [if_neg h2] at h
      by_cases h3 : ty = "bool"
      · rw [if_pos h3] at h
        split at h
        · simp at h
        · simp at h
        · simp at h
          exact h ▸ (by decide)
      · rw [if_neg h3] at h
        simp at h
        exact h ▸ (by decide)

theorem decodeParams_error_mem : ∀ (ps : List Param) (d : Bytes) (m : String),
    decodeParams ps d = .error m → m ∈ innerMsgs := by
  intro ps
  induction ps with
  | nil =>
    intro d m h
    simp [decodeParams] at h
  | cons p ps ih =>
    intro d m h
    unfold decodeParams at h
    split_ifs at h with hlen
    · simp at h
      exact h ▸ (by decide)
    · cases hw : decodeWord p.type (d.take 32) <;> rw [hw] at h
      · simp [Except.bind] at h
        exact h ▸ decodeWord_error_mem _ _ _ hw
      · cases hr : decodeParams ps (d.drop 32) <;> rw [hr] at h
        · simp [Except.bind, Except.map] at h
          exact h ▸ ih _ _ hr
        · simp [Except.bind, Except.map] at h

theorem decodeTopicWords_error_mem :
    ∀ (l : List (Param × Bytes)) (m : String),
      decodeTopicWords l = .error m → m ∈ innerMsgs := by
  intro l
  induction l with
  | nil =>
    intro m h
    simp [decodeTopicWords] at h
  | cons pw rest ih =>
    intro m h
    unfold decodeTopicWords at h
    cases hw : decodeWord pw.1.type pw.2 <;> rw [hw] at h
    · simp [Except.bind] at h
      exact h ▸ decodeWord_error_mem _ _ _ hw
    · cases hr : decodeTopicWords rest <;> rw [hr] at h
      · simp [Except.bind, Except.map] at h
        exact h ▸ ih _ hr
      · simp [Except.bind, Except.map] at h

theorem abiFunctionDecodeData_error_mem (n : String) (ins : List Param)
    (d : Bytes) (m : String) (h : abiFunctionDecodeData n ins d = .error m) :
    m ∈ innerMsgs := by
  unfold abiFunctionDecodeData at h
  split_ifs at h with hs
  · exact decodeParams_error_mem _ _ _ h
  · simp at h
    exact h ▸ (by decide)

theorem abiErrorDecode_error_mem (n : String) (ins : List Param)
    (d : Bytes) (m : String) (h : abiErrorDecode n ins d = .error m) :
    m ∈ innerMsgs := by
  unfold abiErrorDecode at h
  split_ifs at h with hs
  · exact decodeParams_error_mem _ _ _ h
  · simp at h
    exact h ▸ (by decide)

theorem abiConstructorDecode_error_mem (ins : List Param) (bc d : Bytes)
    (m : String) (h : abiConstructorDecode ins bc d = .error m) :
    m ∈ innerMsgs := by
  unfold abiConstructorDecode at h
  split_ifs at h with hs
  · exact decodeParams_error_mem _ _ _ h
  · simp at h
    exact h ▸ (by decide)

theorem except_bind_error {α β : Type} (e : String) (f : α → Except String β) :
    (Except.error e : Except String α).bind f = .error e := rfl

theorem except_bind_ok {α β : Type} (a : α) (f : α → Except String β) :
    (Except.ok a : Except String α).bind f = f a := rfl

theorem eventArgTopics_error (n : String) (ins : List Param) (anon : Bool)
    (ts : List Bytes) (e : String) (h : eventArgTopics n ins anon ts = .error e) :
    e = topicsMismatchMsg := by
  unfold eventArgTopics at h
  cases anon with
  | true =>
    rw [if_pos rfl] at h
    exact Except.noConfusion h
  | false =>
    rw [if_neg (by simp)] at h
    cases ts with
    | nil =>
      injection h with h1
      exact h1.symm
    | cons t0 rest =>
      change (if t0 = topicOf n ins then Except.ok rest
        else Except.error topicsMismatchMsg) = Except.error e at h
      split_ifs at h with ht
      all_goals first
        | exact Except.noConfusion h
        | (injection h with h1; exact h1.symm)

theorem abiEventDecode_error_mem (n : String) (ins : List Param) (anon : Bool)
    (c : Composite) (m : String) (h : abiEventDecode n ins anon c = .error m) :
    m ∈ innerMsgs := by
  unfold abiEventDecode at h
  split at h
  · injection h with h1
    exact h1 ▸ (by decide)
  · rename_i ts heq
    cases hat : eventArgTopics n ins anon ts <;> rw [hat] at h
    · rw [except_bind_error] at h
      injection h with h1
      have he := eventArgTopics_error n ins anon ts _ hat
      rw [← h1, he]
      decide
    · rename_i ats
      rw [except_bind_ok] at h
      split_ifs at h with hl
      · cases hdt : decodeTopicWords ((ins.filter (fun p => p.indexed)).zip ats) <;>
          rw [hdt] at h
        · rw [except_bind_error] at h
          injection h with h1
          exact h1 ▸ decodeTopicWords_error_mem _ _ hdt
        · rw [except_bind_ok] at h
          cases hdp : decodeParams (ins.filter (fun p => !p.indexed))
              (c.dataField.getD []) <;> rw [hdp] at h
          · simp [Except.map] at h
            exact h ▸ decodeParams_error_mem _ _ _ hdp
          · simp [Except.map] at h
      · injection h with h1
        exact h1 ▸ (by decide)

/-- C3 (amended): `decode` enforces its payload shape per kind with the
kind-specific messages of the source — function, error and non-empty
tuple items reject composite objects, event items reject flat strings,
constructor items reject flat strings and composites lacking `bytecode`;
the five messages are pairwise distinct, and a correctly shaped payload
never produces a shape-error message.  The original claim fails only for
the empty tuple item, which silently returns the empty list on a
composite payload (see the counterexample). -/
theorem c3_shape_errors_amended :
    (∀ n ins outs sm c, decode (.func n ins outs sm) (.obj c) = .error funcShapeMsg) ∧
    (∀ n ins c, decode (.err n ins) (.obj c) = .error errShapeMsg) ∧
    (∀ comps c, comps ≠ [] → decode (.tup comps) (.obj c) = .error structShapeMsg) ∧
    (∀ n ins anon b, decode (.evt n ins anon) (.str b) = .error evtShapeMsg) ∧
    (∀ ins sm b, decode (.ctor ins sm) (.str b) = .error ctorShapeMsg) ∧
    (∀ ins sm c, c.bytecode = none → decode (.ctor ins sm) (.obj c) = .error ctorShapeMsg) ∧
    shapeMsgs.Pairwise (· ≠ ·) ∧
    (∀ item payload m, shapeOk item payload = true →
        decode item payload = .error m → m ∉ shapeMsgs) := by
  refine ⟨?_, ?_, ?_, ?_, ?_, ?_, ?_, ?_⟩
  · intro n ins outs sm c
    rfl
  · intro n ins c
    rfl
  · intro comps c hne
    have hpos : comps.length > 0 := List.length_pos.mpr hne
    simp [decode, hpos]
  · intro n ins anon b
    rfl
  · intro ins sm b
    rfl
  · intro ins sm c hbc
    simp [decode, hbc]
  · decide
  · intro item payload m hso h
    have hdisj : ∀ x ∈ innerMsgs, x ∉ shapeMsgs := by decide
    cases item with
    | func n ins outs sm =>
      cases payload with
      | str b =>
        simp only [decode] at h
        exact hdisj m (abiFunctionDecodeData_error_mem _ _ _ _ (exceptMap_error _ _ _ h))
      | obj c => simp [shapeOk] at hso
    | err n ins =>
      cases payload with
      | str b =>
        simp only [decode] at h
        exact hdisj m (abiErrorDecode_error_mem _ _ _ _ (exceptMap_error _ _ _ h))
      | obj c => simp [shapeOk] at hso
    | evt n ins anon =>
      cases payload with
      | str b => simp [shapeOk] at hso
      | obj c =>
        simp only [decode] at h
        exact hdisj m (abiEventDecode_error_mem _ _ _ _ _ h)
    | ctor ins sm =>
      cases payload with
      | str b => simp [shapeOk] at hso
      | obj c =>
        simp only [shapeOk] at hso
        cases hbc : c.bytecode with
        | none =>
          rw [hbc] at hso
          simp at hso
        | some bc =>
          simp only [decode] at h
          rw [hbc] at h
          exact hdisj m (abiConstructorDecode_error_mem _ _ _ _ (exceptMap_error _ _ _ h))
    | tup comps =>
      cases payload with
      | str b =>
        simp only [decode] at h
        split_ifs at h with hpos
        exact hdisj m (decodeParams_error_mem _ _ _ (exceptMap_error _ _ _ h))
      | obj c =>
        simp only [shapeOk] at hso
        have hc : comps = [] := List.isEmpty_iff.mp hso
        subst hc
        simp [decode] at h

/-- C3 witness: concrete shape-error instances — a composite payload
against the `transfer` function and against a one-component tuple. -/
theorem c3_shape_errors_amended_witness :
    ([⟨none, "uint256", false⟩] : List Param) ≠ [] ∧
    decode (.tup [⟨none, "uint256", false⟩]) (.obj ⟨some [], some [], none⟩) =
      .error structShapeMsg ∧
    decode transferFn (.obj ⟨some [], some [], none⟩) = .error funcShapeMsg := by
  refine ⟨by decide, ?_, ?_⟩
  · exact c3_shape_errors_amended.2.2.1 [⟨none, "uint256", false⟩]
      ⟨some [], some [], none⟩ (by decide)
  · exact c3_shape_errors_amended.1 "transfer" transferIns [] "nonpayable"
      ⟨some [], some [], none⟩

/-- C3 counterexample: a Tuple item with an empty components list, given
a composite `\x7b topics, data \x7d` payload, does not throw any shape
error — `decode` silently returns the empty value list. -/
theorem c3_counterexample :
    decode (.tup []) (.obj ⟨some [], some [], none⟩) = .ok (.values []) := rfl

theorem nlFree_cons (c : Char) (l : List Char) :
    nlFree (c :: l) = ((c != '\n') && nlFree l) := by
  simp [nlFree]

theorem scanClose_iff : ∀ l : List Char, scanClose l = true ↔
    ∃ m r, l = m ++ ')' :: r ∧ nlFree m = true ∧ nlFree r = true := by
  intro l
  induction l with
  | nil =>
    constructor
    · intro h
      simp [scanClose] at h
    · rintro ⟨m, r, hl, -, -⟩
      cases m <;> simp at hl
  | cons c rest ih =>
    by_cases hc : c = ')'
    · subst hc
      have heq : scanClose (')' :: rest) = (nlFree rest || scanClose rest) := by
        simp [scanClose]
      rw [heq]
      constructor
      · intro h
        rw [Bool.or_eq_true] at h
        rcases h with hnl | hsc
        · exact ⟨[], rest, rfl, rfl, hnl⟩
        · obtain ⟨m, r, hsplit, hm, hr⟩ := ih.mp hsc
          refine ⟨')' :: m, r, by rw [hsplit]; rfl, ?_, hr⟩
          rw [nlFree_cons, hm]
          rfl
      · rintro ⟨m, r, hsplit, hm, hr⟩
        cases m with
        | nil =>
          simp at hsplit
          rw [hsplit]
          simp [hr]
        | cons a m' =>
          injection hsplit with e0 e1
          subst e1
          rw [Bool.or_eq_true]
          refine Or.inr (ih.mpr ⟨m', r, rfl, ?_, hr⟩)
          rw [nlFree_cons, Bool.and_eq_true] at hm
          exact hm.2
    · have heq : scanClose (c :: rest) = ((c != '\n') && scanClose rest) := by
        simp [scanClose, hc]
      rw [heq]
      constructor
      · intro h
        rw [Bool.and_eq_true] at h
        obtain ⟨hcn, hsc⟩ := h
        obtain ⟨m, r, hsplit, hm, hr⟩ := ih.mp hsc
        refine ⟨c :: m, r, by rw [hsplit]; rfl, ?_, hr⟩
        rw [nlFree_cons, hcn, hm]
        rfl
      · rintro ⟨m, r, hsplit, hm, hr⟩
        cases m with
        | nil =>
          injection hsplit with e0 e1
          exact absurd e0 hc
        | cons a m' =>
          injection hsplit with e0 e1
          subst e0
          subst e1
          rw [nlFree_cons, Bool.and_eq_true] at hm
          obtain ⟨hcn, hm'⟩ := hm
          rw [hcn, ih.mpr ⟨m', r, rfl, hm', hr⟩]
          rfl

/-- C6 (amended): classification takes the tuple branch exactly when the
raw, untrimmed input starts with `(`, at least one further character
follows, and some later `)` splits the remainder into two newline-free
parts — the verbatim semantics of `isTupleRegex`.  No trimming is applied
(a leading space prevents tuple classification) and trailing characters
after the closing `)` are permitted. -/
theorem c6_tuple_branch_amended (s : String) :
    isTupleMatchL s.data = true ↔
      ∃ m r, s.data = '(' :: (m ++ ')' :: r) ∧ m ≠ [] ∧
        nlFree m = true ∧ nlFree r = true := by
  cases hd : s.data with
  | nil =>
    constructor
    · intro h
      simp [isTupleMatchL] at h
    · rintro ⟨m, r, hl, -, -, -⟩
      exact List.noConfusion hl
  | cons c0 tail =>
    cases tail with
    | nil =>
      constructor
      · intro h
        simp [isTupleMatchL] at h
      · rintro ⟨m, r, hl, hmne, -, -⟩
        injection hl with e0 e1
        cases m with
        | nil => exact absurd rfl hmne
        | cons a m' => exact List.noConfusion e1
    | cons c1 rest =>
      constructor
      · intro h
        simp only [isTupleMatchL, Bool.and_eq_true, beq_iff_eq] at h
        obtain ⟨⟨h0, h1n⟩, hsc⟩ := h
        obtain ⟨m, r, hsplit, hm, hr⟩ := (scanClose_iff rest).mp hsc
        subst h0
        refine ⟨c1 :: m, r, by rw [hsplit]; rfl, by simp, ?_, hr⟩
        rw [nlFree_cons, h1n, hm]
        rfl
      · rintro ⟨m, r, hsplit, hmne, hm, hr⟩
        cases m with
        | nil => exact absurd rfl hmne
        | cons a m' =>
          injection hsplit with e0 e1
          injection e1 with e1a e1b
          subst e0
          subst e1a
          subst e1b
          rw [nlFree_cons, Bool.and_eq_true] at hm
          obtain ⟨hcn, hm'⟩ := hm
          simp only [isTupleMatchL, Bool.and_eq_true, beq_iff_eq]
          exact ⟨⟨by simp, by simpa using hcn⟩,
            (scanClose_iff _).mpr ⟨m', r, rfl, hm', hr⟩⟩

/-- C6 counterexample: the claim's trimmed-form condition does not govern
the tuple branch — `" (uint)"` trims to `"(uint)"` (which satisfies the
tuple test) yet is not classified as a tuple, classification failing
instead through the function fallback; and `"(uint)x"`, whose trimmed
form ends in `x` rather than `)`, does match the tuple test. -/
theorem c6_counterexample :
    trimChars (" (uint)".data) = "(uint)".data ∧
    isTupleMatchL ("(uint)".data) = true ∧
    isTupleMatchL (" (uint)".data) = false ∧
    fromSig " (uint)" = .error invalidSignatureMsg ∧
    isTupleMatchL ("(uint)x".data) = true ∧
    ("(uint)x".data).getLast? = some 'x' := by
  decide

/-- Render a type-token list as the inner of a bare parenthesized list. -/
def joinComma : List (List Char) → List Char
  | [] => []
  | x :: xs =>
    match xs with
    | [] => x
    | _ :: _ => x ++ ',' :: joinComma xs

theorem tokenChar_facts (c : Char) (h : tokenChar c = true) :
    isWsChar c = false ∧ (c != ',') = true ∧ (c != '\n') = true := by
  by_cases hw : isWsChar c = true
  · exfalso
    unfold isWsChar at hw
    rw [Bool.or_eq_true, Bool.or_eq_true, Bool.or_eq_true] at hw
    rcases hw with ((h1 | h1) | h1) | h1 <;> rw [beq_iff_eq] at h1 <;>
      subst h1 <;> exact absurd h (by decide)
  · refine ⟨by simpa using hw, ?_, ?_⟩
    · by_cases hc : c = ','
      · subst hc
        exact absurd h (by decide)
      · simp [hc]
    · by_cases hc : c = '\n'
      · subst hc
        exact absurd h (by decide)
      · simp [hc]

theorem all_weaken {p q : Char → Bool} (l : List Char)
    (h : l.all p = true) (himp : ∀ c, p c = true → q c = true) :
    l.all q = true := by
  rw [List.all_eq_true] at h ⊢
  exact fun c hc => himp c (h c hc)

theorem splitComma_nocomma (x : List Char)
    (hx : x.all (fun c => c != ',') = true) : splitComma x = [x] := by
  induction x with
  | nil => rfl
  | cons c rest ih =>
    rw [List.all_cons, Bool.and_eq_true] at hx
    obtain ⟨hc, hrest⟩ := hx
    have hc' : ¬ c = ',' := by simpa using hc
    unfold splitComma
    rw [if_neg hc', ih hrest]

theorem splitComma_cons_comma (rest : List Char) :
    splitComma (',' :: rest) = [] :: splitComma rest := by
  conv_lhs => unfold splitComma
  rw [if_pos rfl]

theorem splitComma_cons_nocomma (c : Char) (rest : List Char) (hc : ¬ c = ',') :
    splitComma (c :: rest) =
      (match splitComma rest with
        | [] => [[c]]
        | g :: gs => (c :: g) :: gs) := by
  conv_lhs => unfold splitComma
  rw [if_neg hc]

theorem splitComma_append (x rest : List Char)
    (hx : x.all (fun c => c != ',') = true) :
    splitComma (x ++ ',' :: rest) = x :: splitComma rest := by
  induction x with
  | nil => exact splitComma_cons_comma rest
  | cons c x' ih =>
    rw [List.all_cons, Bool.and_eq_true] at hx
    obtain ⟨hc, hx'⟩ := hx
    have hc' : ¬ c = ',' := by simpa using hc
    show splitComma (c :: (x' ++ ',' :: rest)) = (c :: x') :: splitComma rest
    rw [splitComma_cons_nocomma c _ hc', ih hx']

theorem splitComma_joinComma : ∀ (ts : List (List Char)), ts ≠ [] →
    (∀ t ∈ ts, t.all (fun c => c != ',') = true) →
    splitComma (joinComma ts) = ts := by
  intro ts
  induction ts with
  | nil =>
    intro h
    exact absurd rfl h
  | cons t ts' ih =>
    intro _ hall
    cases ts' with
    | nil =>
      have hj : joinComma [t] = t := rfl
      rw [hj]
      exact splitComma_nocomma t (hall t (by simp))
    | cons t2 ts'' =>
      have hj : joinComma (t :: t2 :: ts'') = t ++ ',' :: joinComma (t2 :: ts'') := rfl
      rw [hj, splitComma_append t _ (hall t (by simp)),
        ih (by simp) (fun u hu => hall u (List.mem_cons_of_mem t hu))]

theorem dropWhile_all_neg (p : Char → Bool) (l : List Char)
    (h : ∀ c ∈ l, p c = false) : l.dropWhile p = l := by
  cases l with
  | nil => rfl
  | cons c rest =>
    have hc := h c (by simp)
    simp [List.dropWhile_cons, hc]

theorem trimChars_tokens (t : List Char) (h : t.all tokenChar = true) :
    trimChars t = t := by
  have hall : ∀ c ∈ t, isWsChar c = false := by
    rw [List.all_eq_true] at h
    exact fun c hc => (tokenChar_facts c (h c hc)).1
  unfold trimChars
  rw [dropWhile_all_neg _ t hall,
    dropWhile_all_neg _ _ (fun c hc => hall c (by simpa using hc)),
    List.reverse_reverse]

theorem trimChars_paren (mid : List Char) :
    trimChars ('(' :: (mid ++ [')'])) = '(' :: (mid ++ [')']) := by
  unfold trimChars
  have h1 : List.dropWhile isWsChar ('(' :: (mid ++ [')'])) = '(' :: (mid ++ [')']) := by
    rw [List.dropWhile_cons, if_neg (by decide)]
  have h2 : ('(' :: (mid ++ [')'])).reverse = ')' :: (mid.reverse ++ ['(']) := by
    simp
  rw [h1, h2, List.dropWhile_cons, if_neg (by decide), ← h2, List.reverse_reverse]

theorem joinComma_tokens : ∀ (ts : List (List Char)),
    (∀ t ∈ ts, t.all tokenChar = true) →
    (joinComma ts).all (fun c => tokenChar c || (c == ',')) = true := by
  intro ts
  induction ts with
  | nil =>
    intro _
    rfl
  | cons t ts' ih =>
    intro hall
    cases ts' with
    | nil =>
      have hj : joinComma [t] = t := rfl
      rw [hj]
      exact all_weaken t (hall t (by simp)) (fun c hc => by rw [hc]; rfl)
    | cons t2 ts'' =>
      have hj : joinComma (t :: t2 :: ts'') = t ++ ',' :: joinComma (t2 :: ts'') := rfl
      rw [hj, List.all_append, Bool.and_eq_true]
      refine ⟨all_weaken t (hall t (by simp)) (fun c hc => by rw [hc]; rfl), ?_⟩
      rw [List.all_cons, Bool.and_eq_true]
      exact ⟨by decide, ih (fun u hu => hall u (List.mem_cons_of_mem t hu))⟩

theorem joinComma_ne_nil (ts : List (List Char)) (hne : ts ≠ [])
    (hhead : ∀ t ∈ ts, t ≠ []) : joinComma ts ≠ [] := by
  cases ts with
  | nil => exact absurd rfl hne
  | cons t ts' =>
    cases ts' with
    | nil =>
      have hj : joinComma [t] = t := rfl
      rw [hj]
      exact hhead t (by simp)
    | cons t2 ts'' =>
      have hj : joinComma (t :: t2 :: ts'') = t ++ ',' :: joinComma (t2 :: ts'') := rfl
      rw [hj]
      simp

theorem tupleFromL_paren (mid : List Char) :
    tupleFromL ('(' :: (mid ++ [')'])) = tupleInner mid := by
  unfold tupleFromL
  rw [trimChars_paren]
  show (if ('(' : Char) = '(' then
      (if (mid ++ [')']).getLast? = some ')' then tupleInner (mid ++ [')']).dropLast
       else Except.error invalidTupleTokenMsg)
    else Except.error invalidTupleTokenMsg) = tupleInner mid
  rw [if_pos rfl, if_pos (show (mid ++ [')']).getLast? = some ')' by simp),
    show (mid ++ [')']).dropLast = mid by simp]

/-- C5: classifying the bare type list `"(uint,address)"` yields a Tuple
item with ordered component types `["uint256", "address"]`; in general,
for any non-empty list of well-formed type tokens, the tuple path yields
exactly those tokens in order with `uint` widened to `uint256` and `int`
to `int256` and every other token passed through unchanged. -/
theorem c5_tuple_canonicalization :
    fromSig "(uint,address)" =
      .ok (.tup [⟨none, "uint256", false⟩, ⟨none, "address", false⟩]) ∧
    (∀ ts : List (List Char), ts ≠ [] →
      (∀ t ∈ ts, t ≠ [] ∧ t.all tokenChar = true) →
      fromSigL ('(' :: (joinComma ts ++ [')'])) =
        .ok (.tup (ts.map (fun t =>
          ⟨none, String.mk (if t = "uint".data then "uint256".data
            else if t = "int".data then "int256".data else t), false⟩)))) := by
  constructor
  · decide
  · intro ts hne hall
    have hallTok : ∀ t ∈ ts, t.all tokenChar = true := fun t ht => (hall t ht).2
    have hallNe : ∀ t ∈ ts, t ≠ [] := fun t ht => (hall t ht).1
    have hjoinAll := joinComma_tokens ts hallTok
    have hjoinNl : nlFree (joinComma ts) = true := by
      unfold nlFree
      refine all_weaken _ hjoinAll (fun c hc => ?_)
      rw [Bool.or_eq_true] at hc
      rcases hc with hc | hc
      · exact (tokenChar_facts c hc).2.2
      · rw [beq_iff_eq] at hc
        subst hc
        rfl
    have hmatch : isTupleMatchL ('(' :: (joinComma ts ++ [')'])) = true := by
      cases hj : joinComma ts with
      | nil => exact absurd hj (joinComma_ne_nil ts hne hallNe)
      | cons c tail =>
        rw [hj] at hjoinNl
        rw [nlFree_cons, Bool.and_eq_true] at hjoinNl
        show isTupleMatchL ('(' :: c :: (tail ++ [')'])) = true
        simp only [isTupleMatchL, Bool.and_eq_true, beq_iff_eq]
        exact ⟨⟨by simp, hjoinNl.1⟩,
          (scanClose_iff _).mpr ⟨tail, [], rfl, hjoinNl.2, rfl⟩⟩
    unfold fromSigL
    rw [if_pos hmatch, tupleFromL_paren]
    unfold tupleInner
    have hsplit : splitComma (joinComma ts) = ts :=
      splitComma_joinComma ts hne (fun t ht =>
        all_weaken t (hallTok t ht) (fun c hc => (tokenChar_facts c hc).2.1))
    rw [hsplit]
    have hmapTrim : ts.map trimChars = ts := by
      rw [List.map_congr_left (fun t ht => trimChars_tokens t (hallTok t ht))]
      exact List.map_id ts
    rw [hmapTrim]
    have hfilter : ts.filter (fun e => !e.isEmpty) = ts := by
      rw [List.filter_eq_self]
      intro t ht
      simpa [List.isEmpty_iff] using hallNe t ht
    rw [hfilter]
    have hvalid : (ts.map canonTypeL).all
        (fun e => !e.isEmpty && e.all tokenChar) = true := by
      rw [List.all_eq_true]
      intro e he
      rw [List.mem_map] at he
      obtain ⟨t, ht, rfl⟩ := he
      unfold canonTypeL
      split_ifs
      · decide
      · decide
      · rw [Bool.and_eq_true]
        exact ⟨by simpa [List.isEmpty_iff] using hallNe t ht, hallTok t ht⟩
    rw [if_pos hvalid]
    have hnonempty : (ts.map canonTypeL).isEmpty = false := by
      cases ts with
      | nil => exact absurd rfl hne
      | cons a l => rfl
    rw [if_neg (by simp [hnonempty])]
    rw [List.map_map]
    rfl

/-- C5 witness: the general canonicalization statement applied to the
token list of `"(uint,address)"`. -/
theorem c5_tuple_canonicalization_witness :
    (["uint".data, "address".data] : List (List Char)) ≠ [] ∧
    (∀ t ∈ (["uint".data, "address".data] : List (List Char)),
      t ≠ [] ∧ t.all tokenChar = true) ∧
    fromSigL ('(' :: (joinComma ["uint".data, "address".data] ++ [')'])) =
      .ok (.tup (["uint".data, "address".data].map (fun t =>
        ⟨none, String.mk (if t = "uint".data then "uint256".data
          else if t = "int".data then "int256".data else t), false⟩))) := by
  refine ⟨by decide, by decide, ?_⟩
  exact c5_tuple_canonicalization.2 ["uint".data, "address".data]
    (by decide) (by decide)

/-- Whether a signature string carries one of the four keyword
prefixes the grammars of the classifier dispatch on. -/
def hasKeyword (l : List Char) : Bool :=
  (stripLit "error ".data l).isSome || (stripLit "event ".data l).isSome ||
    (stripLit "function ".data l).isSome || (stripLit "constructor(".data l).isSome

theorem optNone {α : Type} (o : Option α) (h : o.isSome = false) : o = none := by
  cases o with
  | none => rfl
  | some a => simp at h

theorem stripLit_append_self : ∀ (p l : List Char), stripLit p (p ++ l) = some l := by
  intro p
  induction p with
  | nil =>
    intro l
    rfl
  | cons c ps ih =>
    intro l
    show stripLit (c :: ps) (c :: (ps ++ l)) = some l
    simp only [stripLit]
    simp [ih l]

theorem stripLit_head_ne (p : Char) (ps : List Char) (c : Char) (cs : List Char)
    (h : ¬ p = c) : stripLit (p :: ps) (c :: cs) = none := by
  simp only [stripLit]
  rw [if_neg h]

theorem funcAfterKw_function_prefixed (l : List Char) :
    funcAfterKw ("function ".data ++ l) = none := by
  have hl : "function ".data ++ l =
      'f' :: ('u' :: 'n' :: 'c' :: 't' :: 'i' :: 'o' :: 'n' :: ' ' :: l) := rfl
  rw [hl]
  simp only [funcAfterKw]
  rw [if_pos (by decide)]
  have hdw : List.dropWhile identChar
      ('u' :: 'n' :: 'c' :: 't' :: 'i' :: 'o' :: 'n' :: ' ' :: l) = ' ' :: l := by
    rw [List.dropWhile_cons, if_pos (by decide), List.dropWhile_cons,
      if_pos (by decide), List.dropWhile_cons, if_pos (by decide),
      List.dropWhile_cons, if_pos (by decide), List.dropWhile_cons,
      if_pos (by decide), List.dropWhile_cons, if_pos (by decide),
      List.dropWhile_cons, if_pos (by decide), List.dropWhile_cons,
      if_neg (by decide)]
  rw [hdw]
  split
  · rename_i d r2 heq
    injection heq with e1 e2
    subst e1
    rw [if_neg (by decide)]
  · rfl

theorem funcCore_double (l : List Char) :
    funcCore ("function ".data ++ ("function ".data ++ l)) = none := by
  unfold funcCore
  rw [stripLit_append_self]
  show funcAfterKw ("function ".data ++ l) = none
  exact funcAfterKw_function_prefixed l

theorem except_bind_ok_inv {α β : Type} (e : Except String α)
    (g : α → Except String β) (b : β) (h : e.bind g = .ok b) :
    ∃ a, e = .ok a ∧ g a = .ok b := by
  cases e with
  | error m =>
    rw [except_bind_error] at h
    exact absurd h (by simp)
  | ok a => exact ⟨a, rfl, h⟩

theorem except_map_ok_inv {α β : Type} (f : α → β) (e : Except String α)
    (b : β) (h : e.map f = .ok b) : ∃ a, b = f a := by
  cases e with
  | error m => simp [Except.map] at h
  | ok a =>
    simp [Except.map] at h
    exact ⟨a, h.symm⟩

theorem abiFunctionFromL_ok_shape (l : List Char) (it : AbiItem)
    (h : abiFunctionFromL l = .ok it) :
    ∃ nm ins outs sm, it = .func nm ins outs sm := by
  unfold abiFunctionFromL at h
  split at h
  · exact absurd h (by simp)
  · rename_i npt heq
    obtain ⟨ins, -, hg⟩ := except_bind_ok_inv _ _ _ h
    obtain ⟨outs, hit⟩ := except_map_ok_inv _ _ _ hg
    exact ⟨_, _, _, _, hit⟩

/-- C4: for every keyword-less signature string that does not pass the
bare-tuple test, classification of the string and of its
`function `-prefixed form agree exactly — both succeed with the same
Function item or both fail — and a classification failure surfaces the
parse error of the synthesized `function ` re-attempt. -/
theorem c4_keywordless_fallback (s : String)
    (htup : isTupleMatchL s.data = false)
    (hkw : hasKeyword s.data = false) :
    fromSig ("function " ++ s) = fromSig s ∧
    (∀ it, fromSig s = .ok it → ∃ nm ins outs sm, it = .func nm ins outs sm) ∧
    (∀ m, fromSig s = .error m →
      abiFunctionFromL ("function ".data ++ s.data) = .error m) := by
  unfold hasKeyword at hkw
  rw [Bool.or_eq_false_iff, Bool.or_eq_false_iff, Bool.or_eq_false_iff] at hkw
  obtain ⟨⟨⟨he1, he2⟩, he3⟩, he4⟩ := hkw
  have herr := optNone _ he1
  have hevt := optNone _ he2
  have hfn := optNone _ he3
  have hct := optNone _ he4
  have hem : errorSigMatchL s.data = false := by
    unfold errorSigMatchL errorCore
    rw [herr]
    rfl
  have hvm : eventSigMatchL s.data = false := by
    unfold eventSigMatchL eventCore
    rw [hevt]
    rfl
  have hfm : funcSigMatchL s.data = false := by
    unfold funcSigMatchL funcCore
    rw [hfn]
    rfl
  have hcm : ctorSigMatchL s.data = false := by
    unfold ctorSigMatchL ctorCore
    rw [hct]
    rfl
  have hs : fromSig s = abiFunctionFromL ("function ".data ++ s.data) := by
    unfold fromSig fromSigL
    rw [if_neg (by simp [htup]), if_neg (by simp [hem]), if_neg (by simp [hvm]),
      if_neg (by simp [hfm]), if_neg (by simp [hcm])]
  have hdata : ("function " ++ s).data = "function ".data ++ s.data :=
    String.data_append ..
  have h1 : isTupleMatchL ("function ".data ++ s.data) = false := by
    have hl : "function ".data ++ s.data =
        'f' :: 'u' :: ('n' :: 'c' :: 't' :: 'i' :: 'o' :: 'n' :: ' ' :: s.data) := rfl
    rw [hl]
    simp [isTupleMatchL]
  have h2 : errorSigMatchL ("function ".data ++ s.data) = false := by
    unfold errorSigMatchL errorCore
    have hstrip : stripLit "error ".data ("function ".data ++ s.data) = none := by
      have e1 : ("error ".data : List Char) = 'e' :: ['r', 'r', 'o', 'r', ' '] := rfl
      have e2 : "function ".data ++ s.data =
          'f' :: (['u', 'n', 'c', 't', 'i', 'o', 'n', ' '] ++ s.data) := rfl
      rw [e1, e2, stripLit_head_ne _ _ _ _ (by decide)]
    rw [hstrip]
    rfl
  have h3 : eventSigMatchL ("function ".data ++ s.data) = false := by
    unfold eventSigMatchL eventCore
    have hstrip : stripLit "event ".data ("function ".data ++ s.data) = none := by
      have e1 : ("event ".data : List Char) = 'e' :: ['v', 'e', 'n', 't', ' '] := rfl
      have e2 : "function ".data ++ s.data =
          'f' :: (['u', 'n', 'c', 't', 'i', 'o', 'n', ' '] ++ s.data) := rfl
      rw [e1, e2, stripLit_head_ne _ _ _ _ (by decide)]
    rw [hstrip]
    rfl
  have h4 : ctorSigMatchL ("function ".data ++ s.data) = false := by
    unfold ctorSigMatchL ctorCore
    have hstrip : stripLit "constructor(".data ("function ".data ++ s.data) = none := by
      have e1 : ("constructor(".data : List Char) =
          'c' :: ['o', 'n', 's', 't', 'r', 'u', 'c', 't', 'o', 'r', '('] := rfl
      have e2 : "function ".data ++ s.data =
          'f' :: (['u', 'n', 'c', 't', 'i', 'o', 'n', ' '] ++ s.data) := rfl
      rw [e1, e2, stripLit_head_ne _ _ _ _ (by decide)]
    rw [hstrip]
    rfl
  have hmain : fromSig ("function " ++ s) = fromSig s := by
    by_cases hb : funcSigMatchL ("function ".data ++ s.data) = true
    · have hff : fromSig ("function " ++ s) =
          abiFunctionFromL ("function ".data ++ s.data) := by
        unfold fromSig fromSigL
        rw [hdata]
        rw [if_neg (by rw [h1]; exact Bool.false_ne_true),
          if_neg (by rw [h2]; exact Bool.false_ne_true),
          if_neg (by rw [h3]; exact Bool.false_ne_true),
          if_pos hb]
      rw [hff, hs]
    · have hfc : funcCore ("function ".data ++ s.data) = none := by
        unfold funcSigMatchL at hb
        cases hx : funcCore ("function ".data ++ s.data)
        · rfl
        · rw [hx] at hb
          simp at hb
      have hub : abiFunctionFromL ("function ".data ++ s.data) =
          .error invalidSignatureMsg := by
        unfold abiFunctionFromL
        rw [hfc]
      have hff : fromSig ("function " ++ s) =
          abiFunctionFromL ("function ".data ++ ("function ".data ++ s.data)) := by
        unfold fromSig fromSigL
        rw [hdata]
        rw [if_neg (by rw [h1]; exact Bool.false_ne_true),
          if_neg (by rw [h2]; exact Bool.false_ne_true),
          if_neg (by rw [h3]; exact Bool.false_ne_true),
          if_neg hb,
          if_neg (by rw [h4]; exact Bool.false_ne_true)]
      have hdbl : abiFunctionFromL ("function ".data ++ ("function ".data ++ s.data)) =
          .error invalidSignatureMsg := by
        unfold abiFunctionFromL
        rw [funcCore_double]
      rw [hff, hdbl, hs, hub]
  refine ⟨hmain, ?_, ?_⟩
  · intro it hit
    rw [hs] at hit
    exact abiFunctionFromL_ok_shape _ _ hit
  · intro m hm
    rw [hs] at hm
    exact hm

/-- C4 witness: the bare `approve(address,uint256)` signature classifies
exactly like its `function `-prefixed form. -/
theorem c4_keywordless_fallback_witness :
    isTupleMatchL ("approve(address,uint256)".data) = false ∧
    hasKeyword ("approve(address,uint256)".data) = false ∧
    fromSig ("function " ++ "approve(address,uint256)") =
      fromSig "approve(address,uint256)" :=
  ⟨by decide, by decide,
    (c4_keywordless_fallback "approve(address,uint256)" (by decide) (by decide)).1⟩

end MiniEthTool
